import Mathlib

/-!
Verification of the credential-selection, fallback, executor and translator
core of an AI routing gateway.  JavaScript values are shallowly embedded:
timestamps are milliseconds as `Nat`, JS `null`/`undefined` become `Option`,
JS objects with a known field set become structures, and free-form JSON
becomes the inductive `JValue`.  Stateful store writes become explicit
data-record transformations.
-/

namespace Gateway

/-- JS `a || b` on an optional number: `0`, `null` and `undefined` are falsy. -/
def jsOrN (o : Option Nat) (d : Nat) : Nat :=
  match o with
  | some n => if n = 0 then d else n
  | none => d

/-- JS `a || null` on an optional number: collapse the falsy `0` to `null`. -/
def jsNumOrNull (o : Option Nat) : Option Nat :=
  match o with
  | some n => if n = 0 then none else some n
  | none => none

/-- JS truthiness of an optional string: `null`, `undefined` and `""` are falsy. -/
def jsTruthyStr (o : Option String) : Bool :=
  match o with
  | some s => s ≠ ""
  | none => false

/-- JS `a || null` on an optional string: collapse the falsy `""` to `null`. -/
def jsStrOrNull (o : Option String) : Option String :=
  match o with
  | some s => if s = "" then none else some s
  | none => none

/-- `Math.ceil(d / 1000)` on an integer number of milliseconds. -/
def ceilDiv1000 (d : Int) : Int := -((-d).fdiv 1000)

/-- The stable insertion of `a` in front of the first element `b` of an already
sorted list with `le a b`; later elements equal to `a` stay behind it.  This is
the uniquely determined behaviour of the (stable) JS `Array.prototype.sort`
with a consistent comparator. -/
def jsSortInsert (le : α → α → Bool) (a : α) : List α → List α
  | [] => [a]
  | b :: bs => if le a b then a :: b :: bs else b :: jsSortInsert le a bs

/-- Stable sort by a boolean comparator, modelling JS `Array.prototype.sort`. -/
def jsStableSort (le : α → α → Bool) : List α → List α
  | [] => []
  | a :: as => jsSortInsert le a (jsStableSort le as)

/-- The first element of a list attaining the minimal key: the specification of
the head of a stable ascending sort. -/
def firstMinBy (key : α → Nat) : List α → Option α
  | [] => none
  | a :: as =>
    match firstMinBy key as with
    | none => some a
    | some b => if key a ≤ key b then some a else some b

theorem jsSortInsert_head (key : α → Nat) (a : α) (l : List α) :
    (jsSortInsert (fun x y => key x ≤ key y) a l).head? =
      some (match l.head? with
        | none => a
        | some b => if key a ≤ key b then a else b) := by
  cases l with
  | nil => simp [jsSortInsert]
  | cons b bs =>
    by_cases h : key a ≤ key b <;> simp [jsSortInsert, h]

theorem jsStableSort_head (key : α → Nat) (l : List α) :
    (jsStableSort (fun x y => key x ≤ key y) l).head? = firstMinBy key l := by
  induction l with
  | nil => rfl
  | cons a as ih =>
    rw [jsStableSort, jsSortInsert_head, firstMinBy, ← ih]
    cases (jsStableSort (fun x y => key x ≤ key y) as).head? with
    | none => simp
    | some b => by_cases h : key a ≤ key b <;> simp [h]

theorem mem_jsSortInsert (le : α → α → Bool) (a x : α) (l : List α) :
    x ∈ jsSortInsert le a l ↔ x = a ∨ x ∈ l := by
  induction l with
  | nil => simp [jsSortInsert]
  | cons b bs ih =>
    by_cases h : le a b = true <;> simp [jsSortInsert, h, ih] <;> tauto

theorem mem_jsStableSort (le : α → α → Bool) (x : α) (l : List α) :
    x ∈ jsStableSort le l ↔ x ∈ l := by
  induction l with
  | nil => simp [jsStableSort]
  | cons a as ih => simp [jsStableSort, mem_jsSortInsert, ih]

/-! ## Data model: provider connections and the machine record -/

/-- One provider account of a machine record (`ProviderConnection`).
Timestamps (`updatedAt`, `rateLimitedUntil`, `lastErrorAt`, `expiresAt`) are
milliseconds since the epoch; the source stores ISO strings and always
compares them through `new Date(x).getTime()`. -/
structure ProviderConnection where
  provider : String
  isActive : Bool
  priority : Option Nat
  updatedAt : Nat
  rateLimitedUntil : Option Nat
  status : Option String
  lastError : Option String
  errorCode : Option Nat
  lastErrorAt : Option Nat
  backoffLevel : Option Nat
  apiKey : Option String
  accessToken : Option String
  refreshToken : Option String
  expiresAt : Option Nat
  projectId : Option String
  providerSpecificData : Option String
  deriving Repr, DecidableEq

/-- The machine record; `providers` is the `Object.entries` view of the
connection map, in insertion order with unique keys. -/
structure MachineData where
  providers : List (String × ProviderConnection)
  deriving Repr, DecidableEq

/-- The effective sort key `conn.priority || 999`: a missing (or falsy `0`)
priority counts as 999. -/
def effectivePriority (c : ProviderConnection) : Nat := jsOrN c.priority 999

/-- Modelled from the spec: `isAccountUnavailable` lives in
`open-sse/services/accountFallback.js`, which is not among the given sources;
spec 4.D keeps a connection when `rateLimitedUntil == null ∨ rateLimitedUntil ≤ now`,
so it is unavailable when the timestamp is set and strictly in the future. -/
def isAccountUnavailable (now : Nat) (rateLimitedUntil : Option Nat) : Bool :=
  match rateLimitedUntil with
  | some t => now < t
  | none => false

/-- Modelled from the spec: `getEarliestRateLimitedUntil` (same missing module);
spec 4.D step 4 returns `retryAfter = min(rateLimitedUntil)` over the
connections with `rateLimitedUntil > now`. -/
def getEarliestRateLimitedUntil (now : Nat) (conns : List ProviderConnection) : Option Nat :=
  (conns.filterMap (fun c => c.rateLimitedUntil)).foldl
    (fun acc t => if now < t then
        match acc with
        | none => some t
        | some a => some (min a t)
      else acc) none

/-- Modelled from the spec: `formatRetryAfter` renders the remaining cooldown
for humans; the spec fixes no exact text and no claim depends on it. -/
def formatRetryAfter (now : Nat) (until' : Nat) : String :=
  toString ((until' - now) / 1000) ++ "s"

/-- The credential projection returned by `getProviderCredentials`. -/
structure SelectedCredentials where
  id : String
  apiKey : Option String
  accessToken : Option String
  refreshToken : Option String
  expiresAt : Option Nat
  projectId : Option String
  providerSpecificData : Option String
  status : Option String
  lastError : Option String
  rateLimitedUntil : Option Nat
  deriving Repr, DecidableEq

/-- The three possible results of `getProviderCredentials`. -/
inductive CredResult where
  | nothing
  | allRateLimited (retryAfter : Nat) (retryAfterHuman : String)
      (lastError : Option String) (lastErrorCode : Option Nat)
  | creds (c : SelectedCredentials)
  deriving Repr, DecidableEq

/-- Projection of a connection entry into the returned credential object. -/
def projectCredentials (connectionId : String) (c : ProviderConnection) : SelectedCredentials :=
  { id := connectionId
    apiKey := c.apiKey
    accessToken := c.accessToken
    refreshToken := c.refreshToken
    expiresAt := c.expiresAt
    projectId := c.projectId
    providerSpecificData := c.providerSpecificData
    status := c.status
    lastError := c.lastError
    rateLimitedUntil := c.rateLimitedUntil }

/-- The filter of `getProviderCredentials`: matching provider, active, not the
excluded id, not currently rate-limited. -/
def connectionFilter (provider : String) (exclude : Option String) (now : Nat)
    (e : String × ProviderConnection) : Bool :=
  if e.2.provider ≠ provider ∨ ¬ e.2.isActive then false
  else if (match exclude with | some x => x ≠ "" && e.1 = x | none => false) then false
  else if isAccountUnavailable now e.2.rateLimitedUntil then false
  else true

/-- `getProviderCredentials` from the embeddings handler: filter the provider
connections, stable-sort ascending by `priority || 999`, return the head; when
the filter is empty but some matching active connection is cooling down,
report `allRateLimited` with the earliest `rateLimitedUntil`. -/
def getProviderCredentials (data? : Option MachineData) (provider : String)
    (exclude : Option String) (now : Nat) : CredResult :=
  match data? with
  | none => .nothing
  | some data =>
    let providerConnections :=
      jsStableSort (fun a b => effectivePriority a.2 ≤ effectivePriority b.2)
        (data.providers.filter (connectionFilter provider exclude now))
    match providerConnections.head? with
    | some (connectionId, connection) =>
        .creds (projectCredentials connectionId connection)
    | none =>
      let allConnections := (data.providers.filter
        (fun e => e.2.provider = provider ∧ e.2.isActive)).map (·.2)
      match getEarliestRateLimitedUntil now allConnections with
      | some earliest =>
        let rateLimitedConns := allConnections.filter
          (fun c => match c.rateLimitedUntil with
            | some t => decide (now < t)
            | none => false)
        let earliestConn := (jsStableSort
          (fun a b => (a.rateLimitedUntil.getD 0) ≤ (b.rateLimitedUntil.getD 0))
          rateLimitedConns).head?
        .allRateLimited earliest (formatRetryAfter now earliest)
          (jsStrOrNull (earliestConn.bind (·.lastError)))
          (jsNumOrNull (earliestConn.bind (·.errorCode)))
      | none => .nothing

/-- The health-clearing update `clearAccountError` applies to the named
connection: status active, error fields nulled, backoff reset, `updatedAt`
refreshed; every other field is kept. -/
def clearedConnection (c : ProviderConnection) (now : Nat) : ProviderConnection :=
  { c with
    status := some "active"
    lastError := none
    lastErrorAt := none
    rateLimitedUntil := none
    backoffLevel := some 0
    updatedAt := now }

/-- Whether `clearAccountError` considers the used credential errored:
`status === "unavailable" || lastError || rateLimitedUntil` with JS
truthiness. -/
def credentialsHaveError (c : SelectedCredentials) : Bool :=
  c.status = some "unavailable" ∨ jsTruthyStr c.lastError ∨ c.rateLimitedUntil.isSome

/-- `clearAccountError`: returns the written machine record, or `none` when no
store write happens (no recorded error, missing record, or unknown
connection id). -/
def clearAccountError (connectionId : String) (currentCredentials : SelectedCredentials)
    (data? : Option MachineData) (now : Nat) : Option MachineData :=
  if ¬ credentialsHaveError currentCredentials then none
  else
    match data? with
    | none => none
    | some data =>
      match data.providers.lookup connectionId with
      | none => none
      | some _ => some { data with
          providers := data.providers.map
            (fun e => if e.1 = connectionId then (e.1, clearedConnection e.2 now) else e) }

/-- A fallback decision: whether to rotate accounts, for how long to cool the
failing account down, and the next backoff level. -/
structure FallbackDecision where
  shouldFallback : Bool
  cooldownMs : Nat
  newBackoffLevel : Nat
  deriving Repr, DecidableEq

/-- Modelled from the spec: `checkFallbackError` lives in
`open-sse/services/accountFallback.js`, which is not among the given sources;
the table in spec 4.E: 429 cools 60 s × 2^backoff capped at 1 h, 5xx cools
30 s × 2^backoff capped at 10 min, 401/403 cool 5 min, other 4xx do not
fall back, a missing status (network/timeout) cools 15 s × 2^backoff.  The
Antigravity quota-message row (a parsed `retryAfterMs` used verbatim) is not
modelled: no settled claim reaches it. -/
def checkFallbackError (status : Option Nat) (_errorText : Option String)
    (backoffLevel : Nat) : FallbackDecision :=
  match status with
  | none => ⟨true, 15000 * 2 ^ backoffLevel, backoffLevel + 1⟩
  | some s =>
    if s = 429 then ⟨true, min (60000 * 2 ^ backoffLevel) 3600000, backoffLevel + 1⟩
    else if 500 ≤ s then ⟨true, min (30000 * 2 ^ backoffLevel) 600000, backoffLevel + 1⟩
    else if s = 401 ∨ s = 403 then ⟨true, 300000, backoffLevel + 1⟩
    else ⟨false, 0, backoffLevel⟩

/-- Modelled from the spec: `getUnavailableUntil` (same missing module) turns a
cooldown into the absolute timestamp `now + cooldownMs`. -/
def getUnavailableUntil (now : Nat) (cooldownMs : Nat) : Nat := now + cooldownMs

/-- The unavailability update `markAccountUnavailable` applies to the failing
connection. -/
def markedConnection (c : ProviderConnection) (status : Option Nat)
    (errorText : Option String) (now : Nat) : ProviderConnection :=
  let backoffLevel := jsOrN c.backoffLevel 0
  let d := checkFallbackError status errorText backoffLevel
  { c with
    rateLimitedUntil := some (getUnavailableUntil now d.cooldownMs)
    status := some "unavailable"
    lastError := some (match errorText with
      | some s => s.take 100
      | none => "Provider error")
    errorCode := jsNumOrNull status
    lastErrorAt := some now
    backoffLevel := some d.newBackoffLevel
    updatedAt := now }

/-- `markAccountUnavailable`: writes the cooled-down connection back, leaving
the record unchanged when the connection id is unknown. -/
def markAccountUnavailable (data? : Option MachineData) (connectionId : String)
    (status : Option Nat) (errorText : Option String) (now : Nat) : MachineData :=
  match data? with
  | none => { providers := [] }
  | some data =>
    match data.providers.lookup connectionId with
    | none => data
    | some _ => { data with
        providers := data.providers.map
          (fun e => if e.1 = connectionId then
              (e.1, markedConnection e.2 status errorText now)
            else e) }

/-! ## JSON string quoting (`JSON.stringify` on strings) -/

/-- One lowercase hex digit. -/
def hexDigit (n : Nat) : Char :=
  if n < 10 then Char.ofNat (48 + n) else Char.ofNat (87 + n)

/-- Four-digit lowercase hex, as in `JSON.stringify`'s `\u00XX` escapes. -/
def hex4 (n : Nat) : String :=
  String.mk [hexDigit (n / 4096 % 16), hexDigit (n / 256 % 16),
    hexDigit (n / 16 % 16), hexDigit (n % 16)]

/-- `JSON.stringify` escaping of a single character. -/
def jsonEscapeChar (c : Char) : String :=
  if c = '"' then "\\\""
  else if c = '\\' then "\\\\"
  else if c = '\n' then "\\n"
  else if c = '\r' then "\\r"
  else if c = '\t' then "\\t"
  else if c = '\x08' then "\\b"
  else if c = '\x0c' then "\\f"
  else if c.toNat < 32 then "\\u" ++ hex4 c.toNat
  else String.singleton c

/-- `JSON.stringify` of a string value. -/
def jsonQuote (s : String) : String :=
  "\"" ++ String.join (s.data.map jsonEscapeChar) ++ "\""

/-! ## The embeddings fallback loop -/

/-- The response envelope the embeddings handler returns: HTTP status, body
text, and the `Retry-After` header when one is attached. -/
structure EmbResponse where
  status : Nat
  body : String
  retryAfter : Option String
  deriving Repr, DecidableEq

/-- The outcome `handleEmbeddingsCore` reports back to the fallback loop. -/
structure CoreResult where
  success : Bool
  status : Option Nat
  error : Option String
  response : EmbResponse
  deriving Repr, DecidableEq

/-- Modelled from the spec: `errorResponse` from `open-sse/utils/error.js` is
not among the sources; it wraps a message in the §6 error envelope at the
given status.  No claim inspects the body text. -/
def errorResponse (status : Nat) (message : String) : EmbResponse :=
  { status := status
    body := "\x7b\"error\":\x7b\"message\":" ++ jsonQuote message ++ "\x7d\x7d"
    retryAfter := none }

/-- JS `a || d` on an optional string with a string default. -/
def jsOrStr (o : Option String) (d : String) : String :=
  match jsStrOrNull o with
  | some s => s
  | none => d

/-- The number of connections the selection filter would keep with no
exclusion: the termination measure of the fallback loop. -/
def selectableCount (provider : String) (now : Nat) (data : MachineData) : Nat :=
  data.providers.countP (connectionFilter provider none now)

theorem checkFallbackError_shouldFallback_congr (st : Option Nat)
    (e e' : Option String) (b b' : Nat) :
    (checkFallbackError st e b).shouldFallback
      = (checkFallbackError st e' b').shouldFallback := by
  unfold checkFallbackError
  cases st with
  | none => rfl
  | some s =>
    by_cases h1 : s = 429 <;> by_cases h2 : 500 ≤ s <;>
      by_cases h3 : s = 401 ∨ s = 403 <;> simp [h1, h2, h3]

theorem checkFallbackError_cooldown_pos (st : Option Nat) (e : Option String)
    (b : Nat) (h : (checkFallbackError st e b).shouldFallback = true) :
    0 < (checkFallbackError st e b).cooldownMs := by
  unfold checkFallbackError at *
  cases st with
  | none => positivity
  | some s =>
    by_cases h1 : s = 429 <;> by_cases h2 : 500 ≤ s <;>
      by_cases h3 : s = 401 ∨ s = 403 <;>
      simp [h1, h2, h3] at h ⊢ <;> positivity

theorem connectionFilter_exclude_none (provider : String) (exclude : Option String)
    (now : Nat) (e : String × ProviderConnection)
    (h : connectionFilter provider exclude now e = true) :
    connectionFilter provider none now e = true := by
  unfold connectionFilter at *
  split at h
  · exact absurd h (by simp)
  · split at h
    · exact absurd h (by simp)
    · split at h
      · exact absurd h (by simp)
      · simp_all [connectionFilter]

theorem connectionFilter_marked_false (provider : String) (now : Nat)
    (cid : String) (conn : ProviderConnection) (status : Option Nat)
    (errorText : Option String)
    (h : (checkFallbackError status errorText (jsOrN conn.backoffLevel 0)).shouldFallback
      = true) :
    connectionFilter provider none now (cid, markedConnection conn status errorText now)
      = false := by
  have hpos := checkFallbackError_cooldown_pos _ _ _ h
  unfold connectionFilter
  split
  · rfl
  · simp only [markedConnection, isAccountUnavailable, getUnavailableUntil]
    split
    · rfl
    · simp
      omega

theorem countP_map_lt (p : α → Bool) (f : α → α) (l : List α)
    (hmono : ∀ e ∈ l, p (f e) = true → p e = true)
    (e₀ : α) (he₀ : e₀ ∈ l) (hp : p e₀ = true) (hnp : p (f e₀) = false) :
    (l.map f).countP p < l.countP p := by
  induction l with
  | nil => cases he₀
  | cons a as ih =>
    have hmono' : ∀ e ∈ as, p (f e) = true → p e = true :=
      fun e he => hmono e (List.mem_cons_of_mem _ he)
    have hle : (as.map f).countP p ≤ as.countP p := by
      rw [List.countP_map]
      exact List.countP_mono_left (fun x hx => hmono' x hx)
    rcases List.mem_cons.mp he₀ with he | he
    · subst he
      simp only [List.map_cons, List.countP_cons]
      rw [if_pos hp, if_neg (by simp [hnp])]
      omega
    · have hrec := ih hmono' he
      simp only [List.map_cons, List.countP_cons]
      by_cases ha : p (f a) = true
      · rw [if_pos ha, if_pos (hmono a (List.mem_cons_self a as) ha)]
        omega
      · rw [if_neg ha]
        split <;> omega

theorem lookup_isSome_of_mem (k : String) (v : ProviderConnection)
    (l : List (String × ProviderConnection)) (h : (k, v) ∈ l) :
    ∃ v', l.lookup k = some v' := by
  induction l with
  | nil => cases h
  | cons e es ih =>
    obtain ⟨k1, v1⟩ := e
    rcases List.mem_cons.mp h with he | he
    · have hk : k1 = k := by cases he; rfl
      exact ⟨v1, by simp [List.lookup, hk]⟩
    · by_cases hk : k1 = k
      · exact ⟨v1, by simp [List.lookup, hk]⟩
      · rcases ih he with ⟨v', hv'⟩
        exact ⟨v', by simp [List.lookup, beq_false_of_ne (Ne.symm hk), hv']⟩

theorem getProviderCredentials_creds_mem (data : MachineData) (provider : String)
    (exclude : Option String) (now : Nat) (c : SelectedCredentials)
    (h : getProviderCredentials (some data) provider exclude now = .creds c) :
    ∃ conn, (c.id, conn) ∈ data.providers
      ∧ connectionFilter provider exclude now (c.id, conn) = true
      ∧ c = projectCredentials c.id conn := by
  unfold getProviderCredentials at h
  simp only at h
  generalize hsorted : jsStableSort
      (fun a b => effectivePriority a.2 ≤ effectivePriority b.2)
      (data.providers.filter (connectionFilter provider exclude now)) = sorted at h
  match hhead : sorted.head? with
  | none =>
    rw [hhead] at h
    split at h
    · next _ _ heq => cases heq
    · next =>
      split at h
      · exact absurd h (by simp)
      · exact absurd h (by simp)
  | some e =>
    rw [hhead] at h
    obtain ⟨cid, conn⟩ := e
    simp only [CredResult.creds.injEq] at h
    have hc : c = projectCredentials cid conn := h.symm
    have hcid : c.id = cid := by rw [hc]; rfl
    have hmem : (cid, conn) ∈ sorted := List.mem_of_mem_head? hhead
    rw [← hsorted, mem_jsStableSort, List.mem_filter] at hmem
    exact ⟨conn, by rw [hcid]; exact hmem.1, by rw [hcid]; exact hmem.2, by rw [hcid]; exact hc⟩

theorem selectableCount_mark_lt (data : MachineData) (provider : String)
    (exclude : Option String) (now : Nat) (cid : String) (conn : ProviderConnection)
    (status : Option Nat) (errorText : Option String)
    (hmem : (cid, conn) ∈ data.providers)
    (hfilter : connectionFilter provider exclude now (cid, conn) = true)
    (hfb : (checkFallbackError status errorText 0).shouldFallback = true) :
    selectableCount provider now
        (markAccountUnavailable (some data) cid status errorText now)
      < selectableCount provider now data := by
  obtain ⟨v', hv'⟩ := lookup_isSome_of_mem cid conn data.providers hmem
  simp only [markAccountUnavailable]
  rw [hv']
  unfold selectableCount
  refine countP_map_lt _ _ _ ?_ (cid, conn) hmem
      (connectionFilter_exclude_none _ _ _ _ hfilter) ?_
  · intro e he hpe
    by_cases hk : e.1 = cid
    · rw [if_pos hk] at hpe
      rw [connectionFilter_marked_false provider now e.1 e.2 status errorText
        ((checkFallbackError_shouldFallback_congr status errorText errorText 0
          (jsOrN e.2.backoffLevel 0)) ▸ hfb)] at hpe
      cases hpe
    · rwa [if_neg hk] at hpe
  · rw [if_pos rfl]
    exact connectionFilter_marked_false provider now cid conn status errorText
      ((checkFallbackError_shouldFallback_congr status errorText errorText 0
        (jsOrN conn.backoffLevel 0)) ▸ hfb)

/-- The credential-selection and fallback loop of the embeddings handler
(`handleEmbeddings`, loop body): select, call the core through the oracle
`core`, on success clear the account error, on a fallback-eligible failure
mark the account unavailable and retry with it excluded, otherwise pass the
failing response through.  Returns the response together with the final state
of the machine record.  `now` is held fixed across the loop. -/
def embeddingsFallbackLoop (core : SelectedCredentials → CoreResult)
    (provider model : String) (now : Nat) (data : MachineData)
    (excludeConnectionId : Option String) (lastError : Option String)
    (lastStatus : Option Nat) : EmbResponse × MachineData :=
  match h : getProviderCredentials (some data) provider excludeConnectionId now with
  | .allRateLimited retryAfter retryAfterHuman credLastError credLastErrorCode =>
    let retryAfterSec : Int := ceilDiv1000 ((retryAfter : Int) - (now : Int))
    let errorMsg := jsOrStr lastError (jsOrStr credLastError "Unavailable")
    let msg := "[" ++ provider ++ "/" ++ model ++ "] " ++ errorMsg ++ " (" ++ retryAfterHuman ++ ")"
    let status := jsOrN lastStatus (jsOrN credLastErrorCode 503)
    ({ status := status
       body := "\x7b\"error\":\x7b\"message\":" ++ jsonQuote msg ++ "\x7d\x7d"
       retryAfter := some (toString (max retryAfterSec 1)) }, data)
  | .nothing =>
    match excludeConnectionId with
    | none => (errorResponse 400 ("No credentials for provider: " ++ provider), data)
    | some _ =>
      ({ status := jsOrN lastStatus 503
         body := "\x7b\"error\":" ++ jsonQuote (jsOrStr lastError "All accounts unavailable")
           ++ "\x7d"
         retryAfter := none }, data)
  | .creds credentials =>
    let result := core credentials
    if result.success then
      (result.response, (clearAccountError credentials.id credentials (some data) now).getD data)
    else
      if hfb : (checkFallbackError result.status result.error 0).shouldFallback then
        embeddingsFallbackLoop core provider model now
          (markAccountUnavailable (some data) credentials.id result.status result.error now)
          (some credentials.id) result.error result.status
      else
        (result.response, data)
termination_by selectableCount provider now data
decreasing_by
  obtain ⟨conn, hmem, hfilter, hproj⟩ :=
    getProviderCredentials_creds_mem data provider excludeConnectionId now credentials h
  exact selectableCount_mark_lt data provider excludeConnectionId now credentials.id conn
    result.status result.error hmem hfilter hfb

/-! ## Sample data for witnesses -/

/-- A plain active OpenAI connection used as the base of concrete examples. -/
def baseConn : ProviderConnection :=
  { provider := "openai"
    isActive := true
    priority := some 1
    updatedAt := 100
    rateLimitedUntil := none
    status := none
    lastError := none
    errorCode := none
    lastErrorAt := none
    backoffLevel := none
    apiKey := some "k"
    accessToken := none
    refreshToken := none
    expiresAt := none
    projectId := none
    providerSpecificData := none }

/-- A core oracle that always succeeds; used where the loop never reaches it. -/
def sampleCore : SelectedCredentials → CoreResult :=
  fun _ => ⟨true, none, none, ⟨200, "", none⟩⟩

/-! ## Spec-side filter for the credential-selection claim -/

/-- The selection filter as the spec words it: matching provider, active,
id not the excluded one, `rateLimitedUntil` absent or not in the future. -/
def specConnectionKeep (provider : String) (exclude : Option String) (now : Nat)
    (e : String × ProviderConnection) : Bool :=
  decide (e.2.provider = provider) && e.2.isActive
    && (match exclude with | some x => decide (e.1 ≠ x) | none => true)
    && (match e.2.rateLimitedUntil with | some t => decide (t ≤ now) | none => true)

theorem connectionFilter_eq_specKeep (provider : String) (exclude : Option String)
    (now : Nat) (hex : exclude ≠ some "") (e : String × ProviderConnection) :
    connectionFilter provider exclude now e = specConnectionKeep provider exclude now e := by
  obtain ⟨cid, c⟩ := e
  rw [Bool.eq_iff_iff]
  cases exclude with
  | none =>
    rcases hrl : c.rateLimitedUntil with _ | t <;>
      simp [connectionFilter, specConnectionKeep, isAccountUnavailable, hrl, Nat.not_lt] <;>
      tauto
  | some x =>
    have hx : x ≠ "" := fun hxx => hex (by rw [hxx])
    rcases hrl : c.rateLimitedUntil with _ | t <;>
      simp [connectionFilter, specConnectionKeep, isAccountUnavailable, hrl, hx, Nat.not_lt] <;>
      tauto

/-- C10: `clearAccountError` performs no store write when the used credential
has no recorded error (status not "unavailable", `lastError` unset,
`rateLimitedUntil` unset); any write it does perform replaces only the named
connection by its health-cleared version (status active, error fields nulled,
backoff 0, `updatedAt` refreshed) and maps every other connection entry to
itself, so all other fields and connections are unchanged. -/
theorem clearAccountError_frame (connectionId : String) (creds : SelectedCredentials)
    (data : MachineData) (now : Nat) :
    (creds.status ≠ some "unavailable" → creds.lastError = none →
      creds.rateLimitedUntil = none →
      clearAccountError connectionId creds (some data) now = none)
    ∧ (∀ d', clearAccountError connectionId creds (some data) now = some d' →
        d'.providers = data.providers.map
          (fun e => if e.1 = connectionId then (e.1, clearedConnection e.2 now) else e)) := by
  constructor
  · intro h1 h2 h3
    unfold clearAccountError
    rw [if_pos]
    unfold credentialsHaveError
    simp [h1, h2, h3, jsTruthyStr]
  · intro d' hd'
    unfold clearAccountError at hd'
    split at hd'
    · exact Option.noConfusion hd'
    · split at hd'
      · next heq => exact Option.noConfusion heq
      · next d2 heq =>
        injection heq with h
        subst h
        split at hd'
        · exact Option.noConfusion hd'
        · simp only [Option.some.injEq] at hd'
          subst hd'
          rfl

/-- Witness for C10 at concrete inputs: an errored credential triggers the
write and the written record is exactly the health-cleared map image. -/
theorem clearAccountError_frame_witness :
    clearAccountError "c1"
        (projectCredentials "c1" { baseConn with lastError := some "boom" })
        (some ⟨[("c1", { baseConn with lastError := some "boom" }), ("c2", baseConn)]⟩) 777
      = some ⟨[("c1", clearedConnection { baseConn with lastError := some "boom" } 777),
          ("c2", baseConn)]⟩ := by
  have h := (clearAccountError_frame "c1"
    (projectCredentials "c1" { baseConn with lastError := some "boom" })
    ⟨[("c1", { baseConn with lastError := some "boom" }), ("c2", baseConn)]⟩ 777).2
  match hres : clearAccountError "c1"
      (projectCredentials "c1" { baseConn with lastError := some "boom" })
      (some ⟨[("c1", { baseConn with lastError := some "boom" }), ("c2", baseConn)]⟩) 777 with
  | none => exact absurd hres (by decide)
  | some d' =>
    have hp := h d' hres
    have : d' = ⟨[("c1", clearedConnection { baseConn with lastError := some "boom" } 777),
        ("c2", baseConn)]⟩ := by
      obtain ⟨ps⟩ := d'
      simp only at hp
      rw [hp]
      decide
    rw [this]

/-- C2 (counterexample to the tie-break): two active connections of equal
priority where the second has the newer `updatedAt`; selection returns the
first entry, not the one with newer `updatedAt` as the claim states. -/
theorem getProviderCredentials_tie_counterexample :
    getProviderCredentials
        (some ⟨[("a", baseConn), ("b", { baseConn with updatedAt := 200 })]⟩)
        "openai" none 1000
      = .creds (projectCredentials "a" baseConn)
    ∧ baseConn.updatedAt < 200
    ∧ effectivePriority baseConn
        = effectivePriority { baseConn with updatedAt := 200 } := by
  refine ⟨?_, by decide, by decide⟩
  decide

/-- C2 (amended): credential selection keeps exactly the connections the spec
filter describes (matching provider, active, not excluded, not cooling down),
orders them ascending by `priority` where a missing or falsy (`0`) priority
counts as 999, breaks ties by the earlier position in the providers map (the
stable JS sort) — not by newer `updatedAt` — and returns the projection of
that first minimal entry. -/
theorem getProviderCredentials_selects_firstMin (data : MachineData)
    (provider : String) (exclude : Option String) (now : Nat)
    (e : String × ProviderConnection) (hex : exclude ≠ some "")
    (hmin : firstMinBy (fun x => effectivePriority x.2)
        (data.providers.filter (connectionFilter provider exclude now)) = some e) :
    getProviderCredentials (some data) provider exclude now
        = .creds (projectCredentials e.1 e.2)
    ∧ data.providers.filter (connectionFilter provider exclude now)
        = data.providers.filter (specConnectionKeep provider exclude now) := by
  constructor
  · obtain ⟨cid, conn⟩ := e
    unfold getProviderCredentials
    simp only
    rw [jsStableSort_head, hmin]
  · exact List.filter_congr
      (fun x _ => connectionFilter_eq_specKeep provider exclude now hex x)

/-- Witness for C2 at concrete inputs: among a priority-2 and a priority-1
connection the priority-1 one is selected. -/
theorem getProviderCredentials_selects_firstMin_witness :
    getProviderCredentials
        (some ⟨[("a", { baseConn with priority := some 2 }), ("b", baseConn)]⟩)
        "openai" none 1000
      = .creds (projectCredentials "b" baseConn) :=
  (getProviderCredentials_selects_firstMin
    ⟨[("a", { baseConn with priority := some 2 }), ("b", baseConn)]⟩
    "openai" none 1000 ("b", baseConn) (by decide) (by decide)).1

/-! ## Characterising the earliest rate-limit fold -/

theorem earliestFoldl_some (now : Nat) (ts : List Nat) :
    ∀ a, now < a →
      ∃ m, ts.foldl (fun acc t => if now < t then
            match acc with
            | none => some t
            | some a' => some (min a' t)
          else acc) (some a) = some m
        ∧ now < m ∧ m ≤ a ∧ (m = a ∨ m ∈ ts) ∧ ∀ t ∈ ts, now < t → m ≤ t := by
  induction ts with
  | nil =>
    intro a ha
    exact ⟨a, rfl, ha, le_refl a, Or.inl rfl, by simp⟩
  | cons t ts ih =>
    intro a ha
    by_cases ht : now < t
    · obtain ⟨m, hm, hnm, hma, hmem, hmin⟩ := ih (min a t) (lt_min ha ht)
      refine ⟨m, by simpa [ht] using hm, hnm,
        le_trans hma (min_le_left a t), ?_, ?_⟩
      · rcases hmem with rfl | hmem
        · rcases min_choice a t with h | h
          · exact Or.inl h
          · exact Or.inr (by rw [h]; exact List.mem_cons_self t ts)
        · exact Or.inr (List.mem_cons_of_mem t hmem)
      · intro u hu hnu
        rcases List.mem_cons.mp hu with rfl | hu
        · exact le_trans hma (min_le_right a u)
        · exact hmin u hu hnu
    · obtain ⟨m, hm, hnm, hma, hmem, hmin⟩ := ih a ha
      refine ⟨m, by simpa [ht] using hm, hnm, hma, ?_, ?_⟩
      · rcases hmem with rfl | hmem
        · exact Or.inl rfl
        · exact Or.inr (List.mem_cons_of_mem t hmem)
      · intro u hu hnu
        rcases List.mem_cons.mp hu with rfl | hu
        · exact absurd hnu ht
        · exact hmin u hu hnu

theorem earliestFoldl_cases (now : Nat) (ts : List Nat) :
    (ts.foldl (fun acc t => if now < t then
          match acc with
          | none => some t
          | some a' => some (min a' t)
        else acc) none = none
      ∧ ∀ t ∈ ts, ¬ now < t)
    ∨ (∃ m, ts.foldl (fun acc t => if now < t then
          match acc with
          | none => some t
          | some a' => some (min a' t)
        else acc) none = some m
      ∧ now < m ∧ m ∈ ts ∧ ∀ t ∈ ts, now < t → m ≤ t) := by
  induction ts with
  | nil => exact Or.inl ⟨rfl, by simp⟩
  | cons t ts ih =>
    by_cases ht : now < t
    · right
      obtain ⟨m, hm, hnm, hma, hmem, hmin⟩ := earliestFoldl_some now ts t ht
      refine ⟨m, by simpa [ht] using hm, hnm, ?_, ?_⟩
      · rcases hmem with rfl | hmem
        · exact List.mem_cons_self m ts
        · exact List.mem_cons_of_mem t hmem
      · intro u hu hnu
        rcases List.mem_cons.mp hu with rfl | hu
        · exact hma
        · exact hmin u hu hnu
    · rcases ih with ⟨hnone, hall⟩ | ⟨m, hm, hnm, hmem, hmin⟩
      · left
        refine ⟨by simpa [ht] using hnone, ?_⟩
        intro u hu
        rcases List.mem_cons.mp hu with rfl | hu
        · exact ht
        · exact hall u hu
      · right
        refine ⟨m, by simpa [ht] using hm, hnm, List.mem_cons_of_mem t hmem, ?_⟩
        intro u hu hnu
        rcases List.mem_cons.mp hu with rfl | hu
        · exact absurd hnu ht
        · exact hmin u hu hnu

theorem getEarliest_cases (now : Nat) (conns : List ProviderConnection) :
    (getEarliestRateLimitedUntil now conns = none
      ∧ ∀ c ∈ conns, ∀ u, c.rateLimitedUntil = some u → ¬ now < u)
    ∨ (∃ m, getEarliestRateLimitedUntil now conns = some m ∧ now < m
        ∧ (∃ c ∈ conns, c.rateLimitedUntil = some m)
        ∧ ∀ c ∈ conns, ∀ u, c.rateLimitedUntil = some u → now < u → m ≤ u) := by
  unfold getEarliestRateLimitedUntil
  rcases earliestFoldl_cases now (conns.filterMap (fun c => c.rateLimitedUntil)) with
    ⟨h1, h2⟩ | ⟨m, hm, hnm, hmem, hmin⟩
  · exact Or.inl ⟨h1, fun c hc u hu => h2 u (List.mem_filterMap.mpr ⟨c, hc, hu⟩)⟩
  · obtain ⟨c, hc, hcu⟩ := List.mem_filterMap.mp hmem
    exact Or.inr ⟨m, hm, hnm, ⟨c, hc, hcu⟩,
      fun c' hc' u hu hnu => hmin u (List.mem_filterMap.mpr ⟨c', hc', hu⟩) hnu⟩

theorem embLoop_allRL_eq (core : SelectedCredentials → CoreResult)
    (provider model : String) (now : Nat) (data : MachineData)
    (exclude : Option String) (lastError : Option String) (lastStatus : Option Nat)
    (ra : Nat) (hu : String) (le : Option String) (lec : Option Nat)
    (hsel : getProviderCredentials (some data) provider exclude now
      = .allRateLimited ra hu le lec) :
    embeddingsFallbackLoop core provider model now data exclude lastError lastStatus
      = ({ status := jsOrN lastStatus (jsOrN lec 503)
           body := "\x7b\"error\":\x7b\"message\":" ++ jsonQuote
             ("[" ++ provider ++ "/" ++ model ++ "] "
               ++ jsOrStr lastError (jsOrStr le "Unavailable") ++ " (" ++ hu ++ ")")
             ++ "\x7d\x7d"
           retryAfter := some (toString (max (ceilDiv1000 ((ra : Int) - (now : Int))) 1)) },
        data) := by
  unfold embeddingsFallbackLoop
  split
  · next h =>
    rw [hsel] at h
    injection h with h1 h2 h3 h4
    subst h1; subst h2; subst h3; subst h4
    rfl
  · next h =>
    rw [hsel] at h
    cases h
  · next c' h =>
    rw [hsel] at h
    cases h

/-- C1 (amended): when at least one matching active connection exists and
every matching active connection is currently rate-limited, the fallback loop
returns at once a response whose `Retry-After` header is the remaining
cooldown to the earliest `rateLimitedUntil` in whole seconds, rounded up and
at least 1 — but whose HTTP status is the stored `errorCode` reported for the
earliest cooling connection when nonzero and 503 otherwise, not always 429. -/
theorem embeddingsLoop_allRateLimited (core : SelectedCredentials → CoreResult)
    (provider model : String) (now : Nat) (data : MachineData)
    (hone : ∃ e ∈ data.providers, e.2.provider = provider ∧ e.2.isActive = true)
    (hall : ∀ e ∈ data.providers, e.2.provider = provider → e.2.isActive = true →
      ∃ t, e.2.rateLimitedUntil = some t ∧ now < t) :
    ∃ ra lastErr lec,
      getProviderCredentials (some data) provider none now
          = .allRateLimited ra (formatRetryAfter now ra) lastErr lec
      ∧ now < ra
      ∧ (∃ e ∈ data.providers, e.2.provider = provider ∧ e.2.isActive = true
          ∧ e.2.rateLimitedUntil = some ra)
      ∧ (∀ e ∈ data.providers, e.2.provider = provider → e.2.isActive = true →
          ∀ u, e.2.rateLimitedUntil = some u → ra ≤ u)
      ∧ (embeddingsFallbackLoop core provider model now data none none none).1.status
          = jsOrN lec 503
      ∧ (embeddingsFallbackLoop core provider model now data none none none).1.retryAfter
          = some (toString (max (ceilDiv1000 ((ra : Int) - (now : Int))) 1))
      ∧ (1 : Int) ≤ max (ceilDiv1000 ((ra : Int) - (now : Int))) 1 := by
  classical
  have hfilter : data.providers.filter (connectionFilter provider none now) = [] := by
    rw [List.filter_eq_nil]
    intro e he
    by_cases hmatch : e.2.provider = provider ∧ e.2.isActive = true
    · obtain ⟨t, ht, hnt⟩ := hall e he hmatch.1 hmatch.2
      simp [connectionFilter, isAccountUnavailable, ht, hnt, hmatch.1, hmatch.2]
    · simp only [connectionFilter]
      rw [if_pos]
      · simp
      · by_contra hc
        push_neg at hc
        exact hmatch ⟨hc.1, by simpa using hc.2⟩
  rcases getEarliest_cases now ((data.providers.filter
      (fun e => e.2.provider = provider ∧ e.2.isActive)).map (·.2)) with
    ⟨_, hnone⟩ | ⟨m, hm, hnm, ⟨c, hcmem, hcu⟩, hmin⟩
  · exfalso
    obtain ⟨e₀, he₀, hp₀, ha₀⟩ := hone
    obtain ⟨t, ht, hnt⟩ := hall e₀ he₀ hp₀ ha₀
    have hmem : e₀.2 ∈ (data.providers.filter
        (fun e => e.2.provider = provider ∧ e.2.isActive)).map (·.2) :=
      List.mem_map.mpr ⟨e₀, List.mem_filter.mpr ⟨he₀, by simp [hp₀, ha₀]⟩, rfl⟩
    exact hnone e₀.2 hmem t ht hnt
  · obtain ⟨lastErr, lec, hsel⟩ : ∃ lastErr lec,
        getProviderCredentials (some data) provider none now
          = .allRateLimited m (formatRetryAfter now m) lastErr lec := by
      unfold getProviderCredentials
      simp only [hfilter, jsStableSort, List.head?, hm]
      exact ⟨_, _, rfl⟩
    have hloop := embLoop_allRL_eq core provider model now data none none none
      m (formatRetryAfter now m) lastErr lec hsel
    obtain ⟨e₁, he₁, he₁c⟩ := List.mem_map.mp hcmem
    have he₁f := List.mem_filter.mp he₁
    refine ⟨m, lastErr, lec, hsel, hnm, ?_, ?_, ?_, ?_, ?_⟩
    · refine ⟨e₁, he₁f.1, ?_, ?_, ?_⟩
      · have := he₁f.2; simp at this; exact this.1
      · have := he₁f.2; simp at this; exact this.2
      · rw [he₁c]; exact hcu
    · intro e he hp ha u hu
      obtain ⟨t, ht, hnt⟩ := hall e he hp ha
      rw [hu] at ht
      injection ht with htu
      subst htu
      exact hmin e.2 (List.mem_map.mpr ⟨e, List.mem_filter.mpr ⟨he, by simp [hp, ha]⟩, rfl⟩)
        u hu hnt
    · rw [hloop]
      simp [jsOrN]
    · rw [hloop]
    · exact le_max_right _ _

/-- C1 counterexample: a machine whose single active OpenAI connection is
rate-limited until 2000 ms with no stored `errorCode`, at `now = 1000`; the
claim demands HTTP 429, but the loop returns status 503 (while it does carry
the Retry-After header). -/
theorem embeddingsLoop_allRateLimited_counterexample :
    (embeddingsFallbackLoop sampleCore "openai" "text-embedding-3-small" 1000
        ⟨[("a", { baseConn with rateLimitedUntil := some 2000 })]⟩
        none none none).1.status = 503
    ∧ (503 : Nat) ≠ 429
    ∧ (∀ e ∈ (⟨[("a", { baseConn with rateLimitedUntil := some 2000 })]⟩
          : MachineData).providers,
        e.2.provider = "openai" ∧ e.2.isActive = true
          ∧ ∃ t, e.2.rateLimitedUntil = some t ∧ 1000 < t)
    ∧ (embeddingsFallbackLoop sampleCore "openai" "text-embedding-3-small" 1000
        ⟨[("a", { baseConn with rateLimitedUntil := some 2000 })]⟩
        none none none).1.retryAfter = some "1" := by
  have hsel : getProviderCredentials
      (some ⟨[("a", { baseConn with rateLimitedUntil := some 2000 })]⟩)
      "openai" none 1000
      = .allRateLimited 2000 (formatRetryAfter 1000 2000) none none := by decide
  have hloop := embLoop_allRL_eq sampleCore "openai" "text-embedding-3-small" 1000
    ⟨[("a", { baseConn with rateLimitedUntil := some 2000 })]⟩ none none none
    2000 (formatRetryAfter 1000 2000) none none hsel
  refine ⟨?_, by decide, by decide, ?_⟩
  · rw [hloop]
    decide
  · rw [hloop]
    decide

/-- Witness for the amended C1 at a concrete input: one cooling connection
with `errorCode` 429 and `rateLimitedUntil` 9000 ms at `now = 1000` leads to
a Retry-After of 8 seconds. -/
theorem embeddingsLoop_allRateLimited_witness :
    (embeddingsFallbackLoop sampleCore "openai" "m" 1000
        ⟨[("a", { baseConn with rateLimitedUntil := some 9000, errorCode := some 429 })]⟩
        none none none).1.retryAfter = some "8" := by
  obtain ⟨ra, lastErr, lec, hsel, hnm, hex, hmin, hst, hra, hge⟩ :=
    embeddingsLoop_allRateLimited sampleCore "openai" "m" 1000
      ⟨[("a", { baseConn with rateLimitedUntil := some 9000, errorCode := some 429 })]⟩
      (by decide) (by decide)
  have hc : getProviderCredentials
      (some ⟨[("a", { baseConn with rateLimitedUntil := some 9000, errorCode := some 429 })]⟩)
      "openai" none 1000
      = .allRateLimited 9000 (formatRetryAfter 1000 9000) none (some 429) := by decide
  rw [hc] at hsel
  injection hsel with h1 h2 h3 h4
  subst h1
  rw [hra]
  decide

/-! ## Combo handling (`compact.js`) -/

/-- One named combo: an ordered list of fully-qualified model strings. -/
structure Combo where
  name : String
  models : List String
  deriving Repr, DecidableEq

/-- `getComboModelsFromData`: `null` when the model string is already
`provider/model`, otherwise the models of the first combo with this name when
non-empty. -/
def getComboModelsFromData (modelStr : String) (combos : List Combo) : Option (List String) :=
  if modelStr.contains '/' then none
  else
    match combos.find? (fun c => c.name = modelStr) with
    | some combo => if combo.models.length > 0 then some combo.models else none
    | none => none

/-- The response envelope the combo handler sees: HTTP status, status text and
body of the single-model handler's `Response`. -/
structure ComboResponse where
  status : Nat
  statusText : String
  body : String
  deriving Repr, DecidableEq

/-- `Response.ok` of the Fetch standard: status in the 2xx range. -/
def ComboResponse.ok (r : ComboResponse) : Bool :=
  200 ≤ r.status && r.status ≤ 299

/-- The last-error text the combo loop records for a failing model:
`modelStr: statusText || status`. -/
def comboErrText (modelStr : String) (r : ComboResponse) : String :=
  modelStr ++ ": " ++ (if r.statusText = "" then toString r.status else r.statusText)

/-- `handleComboChat`: try each model in order through `handleSingleModel`,
return the first response that is ok or below 500, otherwise record the error
and continue; when the list is exhausted answer 503 with the last error. -/
def handleComboChat (handleSingleModel : String → ComboResponse) :
    List String → Option String → ComboResponse
  | [], lastError =>
    { status := 503
      statusText := ""
      body := "\x7b\"error\":" ++ jsonQuote (jsOrStr lastError "All combo models unavailable")
        ++ "\x7d" }
  | modelStr :: rest, lastError =>
    let result := handleSingleModel modelStr
    if result.ok || result.status < 500 then result
    else handleComboChat handleSingleModel rest (some (comboErrText modelStr result))

/-- The error text the loop holds after burning through all of `models`. -/
def comboFinalError (handle : String → ComboResponse) (models : List String)
    (init : Option String) : Option String :=
  models.foldl (fun _ m => some (comboErrText m (handle m))) init

theorem comboResponse_ok_or (r : ComboResponse) :
    (r.ok || decide (r.status < 500)) = decide (r.status < 500) := by
  by_cases h : r.status < 500
  · simp [h]
  · simp only [ComboResponse.ok]
    simp [h]
    omega

theorem handleComboChat_go (handle : String → ComboResponse) (models : List String) :
    ∀ init, handleComboChat handle models init
      = (match models.find? (fun m => decide ((handle m).status < 500)) with
        | some m => handle m
        | none =>
          { status := 503
            statusText := ""
            body := "\x7b\"error\":" ++ jsonQuote
              (jsOrStr (comboFinalError handle models init) "All combo models unavailable")
              ++ "\x7d" }) := by
  induction models with
  | nil => intro init; rfl
  | cons m rest ih =>
    intro init
    rw [handleComboChat]
    simp only [comboResponse_ok_or (handle m)]
    rw [List.find?_cons]
    by_cases hp : (handle m).status < 500
    · simp [hp]
    · simp only [decide_eq_true_eq, hp, decide_eq_false hp]
      rw [ih]
      rfl

/-- C7: the combo handler tries the models in declared order and returns the
response of the first model whose status is below 500 (advancing only past
5xx responses); when every model fails with a 5xx status it returns a fresh
503 response carrying the last recorded error. -/
theorem handleComboChat_spec (handle : String → ComboResponse) (models : List String) :
    handleComboChat handle models none
      = (match models.find? (fun m => decide ((handle m).status < 500)) with
        | some m => handle m
        | none =>
          { status := 503
            statusText := ""
            body := "\x7b\"error\":" ++ jsonQuote
              (jsOrStr (comboFinalError handle models none) "All combo models unavailable")
              ++ "\x7d" })
    ∧ ∀ r : ComboResponse, r.ok = true → r.status < 500 := by
  refine ⟨handleComboChat_go handle models none, ?_⟩
  intro r hr
  simp only [ComboResponse.ok, Bool.and_eq_true, decide_eq_true_eq] at hr
  omega

/-- Witness for C7 at concrete inputs: the first model fails with 500, the
second answers 200 and is returned; and a 204 response counts as below 500. -/
theorem handleComboChat_spec_witness :
    handleComboChat
        (fun m => if m = "a/x" then ⟨500, "err", ""⟩ else ⟨200, "OK", "ok"⟩)
        ["a/x", "b/y"] none
      = ⟨200, "OK", "ok"⟩
    ∧ (⟨204, "", ""⟩ : ComboResponse).status < 500 :=
  ⟨by
    rw [(handleComboChat_spec
      (fun m => if m = "a/x" then ⟨500, "err", ""⟩ else ⟨200, "OK", "ok"⟩)
      ["a/x", "b/y"]).1]
    decide,
   (handleComboChat_spec (fun _ => ⟨204, "", ""⟩) []).2 ⟨204, "", ""⟩ rfl⟩

/-! ## GitHub Copilot executor: tool sanitisation and Codex rerouting -/

/-- A `function`-typed OpenAI tool entry: its name and an opaque remainder
(description, parameters, ...). -/
structure ToolFunction where
  name : Option String
  payload : Nat
  deriving Repr, DecidableEq

/-- One tool of the request: a function tool (`type === "function"` with a
`function` object) or anything else, forwarded as-is. -/
inductive Tool where
  | function (fn : ToolFunction)
  | other (payload : Nat)
  deriving Repr, DecidableEq

/-- JS `String.prototype.trim`: strip leading and trailing whitespace. -/
def jsWhitespace (c : Char) : Bool :=
  c = ' ' || c = '\t' || c = '\n' || c = '\r' || c = '\x0b' || c = '\x0c' || c = '\xa0'

/-- JS `trim` on the character list of a string. -/
def jsTrim (s : String) : String :=
  ⟨((s.data.dropWhile jsWhitespace).reverse.dropWhile jsWhitespace).reverse⟩

/-- First character admitted by the GitHub tool-name rule. -/
def githubNameStart (c : Char) : Bool := c.isAlpha || c = '_'

/-- Later characters admitted by the GitHub tool-name rule. -/
def githubNameChar (c : Char) : Bool :=
  c.isAlpha || c.isDigit || c = '_' || c = '.' || c = ':' || c = '-'

/-- The GitHub name rule `[A-Za-z_][A-Za-z0-9_.:-]*` as a predicate. -/
def githubNameOk (s : String) : Bool :=
  match s.data with
  | [] => false
  | c :: cs => githubNameStart c && cs.all githubNameChar

/-- The loop body of `GithubExecutor.sanitizeTools`: `seen` collects already
emitted function names, `out` the emitted tools (capped at 128). -/
def sanitizeToolsGo (seen : List String) (out : List Tool) : List Tool → List Tool
  | [] => out
  | tool :: rest =>
    if out.length ≥ 128 then out
    else
      match tool with
      | .function fn =>
        let name0 := jsTrim (jsOrStr fn.name "")
        let name := if name0.length > 64 then name0.take 64 else name0
        if ¬ githubNameOk name then sanitizeToolsGo seen out rest
        else if name ∈ seen then sanitizeToolsGo seen out rest
        else
          sanitizeToolsGo (name :: seen)
            (out ++ [if (match fn.name with | some n => decide (name ≠ n) | none => true) then
                Tool.function { fn with name := some name }
              else tool]) rest
      | .other p => sanitizeToolsGo seen (out ++ [Tool.other p]) rest

/-- `GithubExecutor.sanitizeTools`: empty input is returned unchanged,
otherwise the capped, name-validated, deduplicated list. -/
def sanitizeTools (tools : List Tool) : List Tool :=
  if tools.length = 0 then tools else sanitizeToolsGo [] [] tools

/-- The function name carried by a tool, when there is one. -/
def toolName : Tool → Option String
  | .function fn => fn.name
  | .other _ => none

theorem dropWhile_eq_self_of_all (p : α → Bool) (l : List α)
    (h : ∀ c ∈ l, p c = false) : l.dropWhile p = l := by
  cases l with
  | nil => rfl
  | cons a as => simp [List.dropWhile, h a (List.mem_cons_self a as)]

theorem githubNameStart_not_ws (c : Char) (h : githubNameStart c = true) :
    jsWhitespace c = false := by
  by_contra hw
  rw [Bool.not_eq_false] at hw
  unfold jsWhitespace at hw
  simp only [Bool.or_eq_true, decide_eq_true_eq] at hw
  rcases hw with ((((((rfl | rfl) | rfl) | rfl) | rfl) | rfl) | rfl) <;>
    exact absurd h (by decide)

theorem githubNameChar_not_ws (c : Char) (h : githubNameChar c = true) :
    jsWhitespace c = false := by
  by_contra hw
  rw [Bool.not_eq_false] at hw
  unfold jsWhitespace at hw
  simp only [Bool.or_eq_true, decide_eq_true_eq] at hw
  rcases hw with ((((((rfl | rfl) | rfl) | rfl) | rfl) | rfl) | rfl) <;>
    exact absurd h (by decide)

theorem jsTrim_of_valid_name (n : String) (h : githubNameOk n = true) : jsTrim n = n := by
  have hall : ∀ c ∈ n.data, jsWhitespace c = false := by
    intro c hc
    unfold githubNameOk at h
    match hd : n.data with
    | [] => rw [hd] at hc; cases hc
    | c0 :: cs =>
      rw [hd] at h hc
      simp only [Bool.and_eq_true] at h
      rcases List.mem_cons.mp hc with rfl | hc
      · exact githubNameStart_not_ws c h.1
      · exact githubNameChar_not_ws c (by
          have := h.2
          rw [List.all_eq_true] at this
          exact this c hc)
  unfold jsTrim
  rw [dropWhile_eq_self_of_all _ _ hall]
  rw [dropWhile_eq_self_of_all _ _ (fun c hc => hall c (List.mem_reverse.mp hc))]
  rw [List.reverse_reverse]

theorem githubNameOk_ne_empty (n : String) (h : githubNameOk n = true) : n ≠ "" := by
  intro he
  subst he
  exact absurd h (by decide)

theorem sanitizeToolsGo_id (rest : List Tool) : ∀ (seen : List String) (out : List Tool),
    out.length + rest.length ≤ 128 →
    (∀ fn, Tool.function fn ∈ rest →
      ∃ n, fn.name = some n ∧ githubNameOk n = true ∧ n.length ≤ 64 ∧ n ∉ seen) →
    (rest.filterMap toolName).Nodup →
    sanitizeToolsGo seen out rest = out ++ rest := by
  induction rest with
  | nil => intro seen out _ _ _; simp [sanitizeToolsGo]
  | cons tool rest ih =>
    intro seen out hlen hval hnodup
    cases tool with
    | other p =>
      simp only [sanitizeToolsGo]
      rw [if_neg (by simp at hlen ⊢; omega)]
      rw [ih seen (out ++ [Tool.other p]) (by simp at hlen ⊢; omega)
        (fun fn hfn => hval fn (List.mem_cons_of_mem _ hfn))
        (by rw [List.filterMap_cons] at hnodup; exact hnodup)]
      simp
    | function fn =>
      obtain ⟨n, hn, hok, hlen64, hseen⟩ := hval fn (List.mem_cons_self _ _)
      have hne : n ≠ "" := githubNameOk_ne_empty n hok
      have hname0 : jsTrim (jsOrStr fn.name "") = n := by
        rw [hn]
        simp only [jsOrStr, jsStrOrNull]
        rw [if_neg hne]
        exact jsTrim_of_valid_name n hok
      simp only [sanitizeToolsGo]
      rw [if_neg (by simp at hlen ⊢; omega)]
      simp only [hname0]
      rw [if_neg (by omega : ¬ n.length > 64)]
      rw [if_neg (by rw [hok]; simp)]
      rw [if_neg (by simpa using hseen)]
      have hpush : (if (match fn.name with | some n' => decide (n ≠ n') | none => true)
          then Tool.function { fn with name := some n } else Tool.function fn)
          = Tool.function fn := by
        rw [hn]
        simp
      rw [hpush]
      have hnd := hnodup
      rw [List.filterMap_cons] at hnd
      simp only [toolName, hn] at hnd
      rw [ih (n :: seen) (out ++ [Tool.function fn]) (by simp at hlen ⊢; omega) ?_ hnd.of_cons]
      · simp
      · intro fn' hfn'
        obtain ⟨n', hn', hok', hlen', hseen'⟩ := hval fn' (List.mem_cons_of_mem _ hfn')
        refine ⟨n', hn', hok', hlen', ?_⟩
        intro hmem
        rcases List.mem_cons.mp hmem with rfl | hmem
        · exact (List.nodup_cons.mp hnd).1
            (List.mem_filterMap.mpr ⟨Tool.function fn', hfn', by simp [toolName, hn']⟩)
        · exact hseen' hmem

/-- C5 (counterexample to idempotence on duplicates): two function tools with
the same valid 1-character name within the 128/64 limits; sanitisation keeps
only the first, so the array is not returned unchanged. -/
theorem sanitizeTools_dup_counterexample :
    sanitizeTools [Tool.function ⟨some "a", 0⟩, Tool.function ⟨some "a", 1⟩]
        = [Tool.function ⟨some "a", 0⟩]
    ∧ ([Tool.function ⟨some "a", 0⟩, Tool.function ⟨some "a", 1⟩] : List Tool).length ≤ 128
    ∧ githubNameOk "a" = true ∧ "a".length ≤ 64
    ∧ sanitizeTools [Tool.function ⟨some "a", 0⟩, Tool.function ⟨some "a", 1⟩]
        ≠ [Tool.function ⟨some "a", 0⟩, Tool.function ⟨some "a", 1⟩] := by
  refine ⟨by decide, by decide, by decide, by decide, by decide⟩

/-- C5 (amended): a tool array of at most 128 entries whose function-tool
names are all valid (match `[A-Za-z_][A-Za-z0-9_.:-]*`, at most 64 chars) and
pairwise distinct is returned unchanged by `sanitizeTools`; with a duplicated
name the later occurrence is dropped, so distinctness is required. -/
theorem sanitizeTools_valid_id (tools : List Tool)
    (hlen : tools.length ≤ 128)
    (hval : ∀ fn, Tool.function fn ∈ tools →
      ∃ n, fn.name = some n ∧ githubNameOk n = true ∧ n.length ≤ 64)
    (hnodup : (tools.filterMap toolName).Nodup) :
    sanitizeTools tools = tools := by
  unfold sanitizeTools
  split
  · rfl
  · rw [sanitizeToolsGo_id tools [] [] (by simpa using hlen) ?_ hnodup]
    · rfl
    · intro fn hfn
      obtain ⟨n, hn, hok, hl⟩ := hval fn hfn
      exact ⟨n, hn, hok, hl, by simp⟩

/-- Witness for the amended C5 at concrete inputs: two distinct valid tools
plus a non-function tool pass through unchanged. -/
theorem sanitizeTools_valid_id_witness :
    sanitizeTools [Tool.function ⟨some "get_weather", 0⟩, Tool.other 7,
        Tool.function ⟨some "run.code:v1-beta", 1⟩]
      = [Tool.function ⟨some "get_weather", 0⟩, Tool.other 7,
        Tool.function ⟨some "run.code:v1-beta", 1⟩] :=
  sanitizeTools_valid_id _ (by decide)
    (by
      intro fn hfn
      simp only [List.mem_cons] at hfn
      rcases hfn with h | h | h | h
      · cases h; exact ⟨"get_weather", rfl, by decide, by decide⟩
      · cases h
      · cases h; exact ⟨"run.code:v1-beta", rfl, by decide, by decide⟩
      · cases h)
    (by decide)

/-! ## GitHub Copilot Codex rerouting (`GithubExecutor.execute`) -/

/-- JS `String.prototype.includes`: scan for the pattern at every start. -/
def containsSubList (pat : List Char) : List Char → Bool
  | [] => pat.isPrefixOf []
  | l@(_ :: rest) => pat.isPrefixOf l || containsSubList pat rest

/-- JS `s.includes(pat)` on strings. -/
def containsSub (s pat : String) : Bool := containsSubList pat.data s.data

/-- The literal error marker GitHub answers for Codex-only models. -/
def githubCodexMarker : String := "not accessible via the /chat/completions endpoint"

/-- The two upstream endpoints `GithubExecutor.execute` can hit. -/
inductive GithubRoute where
  | chatCompletions
  | responses
  deriving Repr, DecidableEq

/-- JS `Set.prototype.add` on the insertion-ordered model set. -/
def setAdd (s : List String) (x : String) : List String :=
  if x ∈ s then s else s ++ [x]

/-- The routing decision of `GithubExecutor.execute` around its per-executor
`knownCodexModels` set: the ordered list of endpoints attempted and the set
after the call.  The upstream's `/chat/completions` answer is abstracted into
`chatStatus`/`chatBody` (it is only consulted when that endpoint is tried);
the `/responses` reissue translates the request openai-chat →
openai-responses (`openaiToOpenAIResponsesRequest`, a module not among the
sources) and both paths first sanitise the tools. -/
def githubExecuteAttempts (knownCodexModels : List String) (model : String)
    (chatStatus : Nat) (chatBody : String) : List GithubRoute × List String :=
  if model ∈ knownCodexModels then
    ([.responses], knownCodexModels)
  else if chatStatus = 400 && containsSub chatBody githubCodexMarker then
    ([.chatCompletions, .responses], setAdd knownCodexModels model)
  else
    ([.chatCompletions], knownCodexModels)

/-- C3: with the model unknown, execute first targets `/chat/completions`;
when that answers HTTP 400 with the marker string in the body, the model is
added to `knownCodexModels` and the request is re-issued against
`/responses`; otherwise no reissue happens; and any call whose model is
already in `knownCodexModels` goes directly to `/responses` without trying
`/chat/completions` — in particular the follow-up call after a marker-400. -/
theorem githubExecute_codexRouting (known : List String) (model : String)
    (chatStatus : Nat) (chatBody : String) (laterStatus : Nat) (laterBody : String) :
    (model ∉ known → chatStatus = 400 → containsSub chatBody githubCodexMarker = true →
      githubExecuteAttempts known model chatStatus chatBody
          = ([.chatCompletions, .responses], known ++ [model])
        ∧ githubExecuteAttempts (known ++ [model]) model laterStatus laterBody
          = ([.responses], known ++ [model]))
    ∧ (model ∉ known → ¬(chatStatus = 400 ∧ containsSub chatBody githubCodexMarker = true) →
      githubExecuteAttempts known model chatStatus chatBody = ([.chatCompletions], known))
    ∧ (model ∈ known →
      githubExecuteAttempts known model chatStatus chatBody = ([.responses], known)) := by
  refine ⟨?_, ?_, ?_⟩
  · intro hnot h400 hmarker
    constructor
    · unfold githubExecuteAttempts
      rw [if_neg hnot, if_pos (by simp [h400, hmarker])]
      unfold setAdd
      rw [if_neg hnot]
    · unfold githubExecuteAttempts
      rw [if_pos (by simp)]
  · intro hnot hcond
    unfold githubExecuteAttempts
    rw [if_neg hnot, if_neg (by
      simp only [Bool.and_eq_true, decide_eq_true_eq]
      intro hc
      exact hcond ⟨hc.1, hc.2⟩)]
  · intro hmem
    unfold githubExecuteAttempts
    rw [if_pos hmem]

/-- Witness for C3 at concrete inputs: a 400 with the marker reroutes and
caches the model; the second call goes straight to `/responses`. -/
theorem githubExecute_codexRouting_witness :
    githubExecuteAttempts [] "gpt-5.1-codex" 400
        ("this model is not accessible via the /chat/completions endpoint, use /responses")
        = ([.chatCompletions, .responses], ["gpt-5.1-codex"])
      ∧ githubExecuteAttempts ["gpt-5.1-codex"] "gpt-5.1-codex" 200 "ok"
        = ([.responses], ["gpt-5.1-codex"]) :=
  (githubExecute_codexRouting [] "gpt-5.1-codex" 400
    ("this model is not accessible via the /chat/completions endpoint, use /responses")
    200 "ok").1 (by decide) rfl (by decide)

/-! ## Codex executor (`CodexExecutor.transformRequest`) -/

/-- The `input` field of a Responses-API body: a string, an array (item
contents left abstract), or any other value. -/
inductive ResponsesInput where
  | str (s : String)
  | list (items : List String)
  | other (v : Nat)
  deriving Repr, DecidableEq

/-- The `reasoning` object of a Responses-API body. -/
structure ReasoningConfig where
  effort : Option String
  summary : Option String
  deriving Repr, DecidableEq

/-- A Responses-API request body: the fields `transformRequest` touches, plus
an opaque remainder. -/
structure CodexRequestBody where
  input : Option ResponsesInput
  stream : Option Bool
  instructions : Option String
  store : Option Bool
  model : String
  reasoning : Option ReasoningConfig
  reasoning_effort : Option String
  includeParam : Option (List String)
  temperature : Option Nat
  top_p : Option Nat
  frequency_penalty : Option Nat
  presence_penalty : Option Nat
  logprobs : Option Nat
  top_logprobs : Option Nat
  n : Option Nat
  seed : Option Nat
  max_tokens : Option Nat
  user : Option Nat
  prompt_cache_retention : Option Nat
  metadata : Option Nat
  stream_options : Option Nat
  safety_identifier : Option Nat
  extra : Nat
  deriving Repr, DecidableEq

/-- Modelled from the spec: `normalizeResponsesInput`
(`translator/helpers/responsesApiHelper.js` is not among the sources)
normalises a string `input` to array form and yields nothing otherwise. -/
def normalizeResponsesInput : Option ResponsesInput → Option ResponsesInput
  | some (.str s) => some (.list [s])
  | _ => none

/-- Modelled from the spec: the default Codex system instructions injected
when absent (`config/codexInstructions.js` is not among the sources); the
text is irrelevant to every claim. -/
def CODEX_DEFAULT_INSTRUCTIONS : String := "codex default instructions"

/-- JS `s.endsWith(pat)`. -/
def jsEndsWith (s pat : String) : Bool := pat.data.isSuffixOf s.data

/-- JS `s.replace(pat, repl)` with a string pattern: replace only the first
occurrence. -/
def jsReplaceOnce (s pat repl : String) : String :=
  match s.splitOn pat with
  | p0 :: p1 :: rest => p0 ++ repl ++ String.intercalate pat (p1 :: rest)
  | _ => s

/-- The model-suffix ladder of `transformRequest`, in source order. -/
def effortLevels : List String := ["none", "low", "medium", "high", "xhigh"]

/-- Statement block 1 of `transformRequest`: convert a string `input` to
array form. -/
def normalizeInputStage (body : CodexRequestBody) : CodexRequestBody :=
  match normalizeResponsesInput body.input with
  | some normalized => { body with input := some normalized }
  | none => body

/-- Statement block 2: replace a missing, falsy or empty-array `input` by the
placeholder user message. -/
def defaultInputStage (body : CodexRequestBody) : CodexRequestBody :=
  if (match body.input with
      | none => true
      | some (.str s) => decide (s = "")
      | some (.list items) => decide (items.length = 0)
      | some (.other _) => false) then
    { body with input := some (.list ["..."]) }
  else body

/-- Statement block 3: `body.stream = true`. -/
def forceStreamStage (body : CodexRequestBody) : CodexRequestBody :=
  { body with stream := some true }

/-- Statement block 4: inject the default instructions when missing or
whitespace-only. -/
def instructionsStage (body : CodexRequestBody) : CodexRequestBody :=
  if (match body.instructions with
      | none => true
      | some s => decide (s = "") || decide (jsTrim s = "")) then
    { body with instructions := some CODEX_DEFAULT_INSTRUCTIONS }
  else body

/-- Statement block 5: `body.store = false`. -/
def forceStoreStage (body : CodexRequestBody) : CodexRequestBody :=
  { body with store := some false }

/-- The thinking level extracted from the model-name suffix: the first of the
`effortLevels` the model name ends in. -/
def codexModelEffort (model : String) : Option String :=
  effortLevels.find? (fun level => jsEndsWith model ("-" ++ level))

/-- Statement block 6: strip the matched suffix from `body.model` (first
occurrence, as JS `String.replace` with a string pattern). -/
def stripSuffixStage (model : String) (body : CodexRequestBody) : CodexRequestBody :=
  match codexModelEffort model with
  | some level => { body with model := jsReplaceOnce body.model ("-" ++ level) "" }
  | none => body

/-- Statement block 7: default the reasoning object with priority explicit
`reasoning` > `reasoning_effort` param > model suffix > `"medium"`, and
default its summary to `"auto"`. -/
def reasoningStage (model : String) (body : CodexRequestBody) : CodexRequestBody :=
  match body.reasoning with
  | none =>
    { body with reasoning := some (ReasoningConfig.mk
        (some (jsOrStr body.reasoning_effort (jsOrStr (codexModelEffort model) "medium")))
        (some "auto")) }
  | some r =>
    if ¬ jsTruthyStr r.summary then
      { body with reasoning := some { r with summary := some "auto" } }
    else body

/-- Statement block 8: `delete body.reasoning_effort`. -/
def deleteReasoningEffortStage (body : CodexRequestBody) : CodexRequestBody :=
  { body with reasoning_effort := none }

/-- Statement block 9: request encrypted reasoning content when the effort is
a truthy string other than `"none"`. -/
def includeStage (body : CodexRequestBody) : CodexRequestBody :=
  if (match body.reasoning with
      | some r => (match r.effort with
        | some e => decide (e ≠ "") && decide (e ≠ "none")
        | none => false)
      | none => false) then
    { body with includeParam := some ["reasoning.encrypted_content"] }
  else body

/-- Statement block 10: strip the parameters Codex does not support. -/
def stripParamsStage (body : CodexRequestBody) : CodexRequestBody :=
  { body with
    temperature := none
    top_p := none
    frequency_penalty := none
    presence_penalty := none
    logprobs := none
    top_logprobs := none
    n := none
    seed := none
    max_tokens := none
    user := none
    prompt_cache_retention := none
    metadata := none
    stream_options := none
    safety_identifier := none }

/-- `CodexExecutor.transformRequest`: the statement blocks of the source, in
order. -/
def CodexExecutor.transformRequest (model : String) (body : CodexRequestBody) :
    CodexRequestBody :=
  stripParamsStage (includeStage (deleteReasoningEffortStage (reasoningStage model
    (stripSuffixStage model (forceStoreStage (instructionsStage (forceStreamStage
      (defaultInputStage (normalizeInputStage body)))))))))

theorem suffix_exclusive (model a b : String)
    (hna : (a.data <:+ b.data) → False) (hnb : (b.data <:+ a.data) → False)
    (ha : jsEndsWith model a = true) : jsEndsWith model b = false := by
  by_contra hb
  rw [Bool.not_eq_false] at hb
  unfold jsEndsWith at ha hb
  rw [List.isSuffixOf_iff_suffix] at ha hb
  rcases List.suffix_or_suffix_of_suffix ha hb with h | h
  · exact hna h
  · exact hnb h

theorem codexSuffix_unique (model : String) (level : String)
    (hl : level ∈ ["low", "medium", "high", "xhigh"])
    (hends : jsEndsWith model ("-" ++ level) = true) :
    effortLevels.find? (fun l => jsEndsWith model ("-" ++ l)) = some level := by
  simp only [List.mem_cons, List.not_mem_nil, or_false] at hl
  unfold effortLevels
  rcases hl with rfl | rfl | rfl | rfl
  · have h0 : jsEndsWith model "-none" = false :=
      suffix_exclusive model ("-" ++ "low") "-none" (by decide) (by decide) hends
    have hends' : jsEndsWith model "-low" = true := hends
    simp [List.find?, h0, hends']
  · have h0 : jsEndsWith model "-none" = false :=
      suffix_exclusive model ("-" ++ "medium") "-none" (by decide) (by decide) hends
    have h1 : jsEndsWith model "-low" = false :=
      suffix_exclusive model ("-" ++ "medium") "-low" (by decide) (by decide) hends
    have hends' : jsEndsWith model "-medium" = true := hends
    simp [List.find?, h0, h1, hends']
  · have h0 : jsEndsWith model "-none" = false :=
      suffix_exclusive model ("-" ++ "high") "-none" (by decide) (by decide) hends
    have h1 : jsEndsWith model "-low" = false :=
      suffix_exclusive model ("-" ++ "high") "-low" (by decide) (by decide) hends
    have h2 : jsEndsWith model "-medium" = false :=
      suffix_exclusive model ("-" ++ "high") "-medium" (by decide) (by decide) hends
    have hends' : jsEndsWith model "-high" = true := hends
    simp [List.find?, h0, h1, h2, hends']
  · have h0 : jsEndsWith model "-none" = false :=
      suffix_exclusive model ("-" ++ "xhigh") "-none" (by decide) (by decide) hends
    have h1 : jsEndsWith model "-low" = false :=
      suffix_exclusive model ("-" ++ "xhigh") "-low" (by decide) (by decide) hends
    have h2 : jsEndsWith model "-medium" = false :=
      suffix_exclusive model ("-" ++ "xhigh") "-medium" (by decide) (by decide) hends
    have h3 : jsEndsWith model "-high" = false :=
      suffix_exclusive model ("-" ++ "xhigh") "-high" (by decide) (by decide) hends
    have hends' : jsEndsWith model "-xhigh" = true := hends
    simp [List.find?, h0, h1, h2, h3, hends']

theorem normalizeInputStage_stream (b : CodexRequestBody) :
    (normalizeInputStage b).stream = b.stream := by
  unfold normalizeInputStage; split <;> rfl

theorem normalizeInputStage_store (b : CodexRequestBody) :
    (normalizeInputStage b).store = b.store := by
  unfold normalizeInputStage; split <;> rfl

theorem normalizeInputStage_reasoning (b : CodexRequestBody) :
    (normalizeInputStage b).reasoning = b.reasoning := by
  unfold normalizeInputStage; split <;> rfl

theorem normalizeInputStage_reasoningEffort (b : CodexRequestBody) :
    (normalizeInputStage b).reasoning_effort = b.reasoning_effort := by
  unfold normalizeInputStage; split <;> rfl

theorem defaultInputStage_stream (b : CodexRequestBody) :
    (defaultInputStage b).stream = b.stream := by
  unfold defaultInputStage; split <;> rfl

theorem defaultInputStage_store (b : CodexRequestBody) :
    (defaultInputStage b).store = b.store := by
  unfold defaultInputStage; split <;> rfl

theorem defaultInputStage_reasoning (b : CodexRequestBody) :
    (defaultInputStage b).reasoning = b.reasoning := by
  unfold defaultInputStage; split <;> rfl

theorem defaultInputStage_reasoningEffort (b : CodexRequestBody) :
    (defaultInputStage b).reasoning_effort = b.reasoning_effort := by
  unfold defaultInputStage; split <;> rfl

theorem instructionsStage_stream (b : CodexRequestBody) :
    (instructionsStage b).stream = b.stream := by
  unfold instructionsStage; split <;> rfl

theorem instructionsStage_store (b : CodexRequestBody) :
    (instructionsStage b).store = b.store := by
  unfold instructionsStage; split <;> rfl

theorem instructionsStage_reasoning (b : CodexRequestBody) :
    (instructionsStage b).reasoning = b.reasoning := by
  unfold instructionsStage; split <;> rfl

theorem instructionsStage_reasoningEffort (b : CodexRequestBody) :
    (instructionsStage b).reasoning_effort = b.reasoning_effort := by
  unfold instructionsStage; split <;> rfl

theorem forceStreamStage_store (b : CodexRequestBody) :
    (forceStreamStage b).store = b.store := rfl

theorem forceStreamStage_reasoning (b : CodexRequestBody) :
    (forceStreamStage b).reasoning = b.reasoning := rfl

theorem forceStreamStage_reasoningEffort (b : CodexRequestBody) :
    (forceStreamStage b).reasoning_effort = b.reasoning_effort := rfl

theorem forceStoreStage_stream (b : CodexRequestBody) :
    (forceStoreStage b).stream = b.stream := rfl

theorem forceStoreStage_reasoning (b : CodexRequestBody) :
    (forceStoreStage b).reasoning = b.reasoning := rfl

theorem forceStoreStage_reasoningEffort (b : CodexRequestBody) :
    (forceStoreStage b).reasoning_effort = b.reasoning_effort := rfl

theorem stripSuffixStage_stream (model : String) (b : CodexRequestBody) :
    (stripSuffixStage model b).stream = b.stream := by
  unfold stripSuffixStage; split <;> rfl

theorem stripSuffixStage_store (model : String) (b : CodexRequestBody) :
    (stripSuffixStage model b).store = b.store := by
  unfold stripSuffixStage; split <;> rfl

theorem stripSuffixStage_reasoning (model : String) (b : CodexRequestBody) :
    (stripSuffixStage model b).reasoning = b.reasoning := by
  unfold stripSuffixStage; split <;> rfl

theorem stripSuffixStage_reasoningEffort (model : String) (b : CodexRequestBody) :
    (stripSuffixStage model b).reasoning_effort = b.reasoning_effort := by
  unfold stripSuffixStage; split <;> rfl

theorem reasoningStage_stream (model : String) (b : CodexRequestBody) :
    (reasoningStage model b).stream = b.stream := by
  unfold reasoningStage; repeat' split
  all_goals rfl

theorem reasoningStage_store (model : String) (b : CodexRequestBody) :
    (reasoningStage model b).store = b.store := by
  unfold reasoningStage; repeat' split
  all_goals rfl

theorem reasoningStage_reasoning (model : String) (b : CodexRequestBody) :
    (reasoningStage model b).reasoning =
      (match b.reasoning with
      | none => some { effort := some (jsOrStr b.reasoning_effort
            (jsOrStr (codexModelEffort model) "medium")), summary := some "auto" }
      | some r => if ¬ jsTruthyStr r.summary then some { r with summary := some "auto" }
          else some r) := by
  rcases hb : b.reasoning with _ | r
  · simp [reasoningStage, hb]
  · by_cases hs : jsTruthyStr r.summary = true
    · simp [reasoningStage, hb, hs]
    · simp [reasoningStage, hb, hs]

theorem includeStage_stream (b : CodexRequestBody) :
    (includeStage b).stream = b.stream := by
  unfold includeStage; split <;> rfl

theorem includeStage_store (b : CodexRequestBody) :
    (includeStage b).store = b.store := by
  unfold includeStage; split <;> rfl

theorem includeStage_reasoning (b : CodexRequestBody) :
    (includeStage b).reasoning = b.reasoning := by
  unfold includeStage; split <;> rfl

theorem codexTransform_reasoning (model : String) (body : CodexRequestBody) :
    (CodexExecutor.transformRequest model body).reasoning =
      (match body.reasoning with
      | none => some { effort := some (jsOrStr body.reasoning_effort
            (jsOrStr (codexModelEffort model) "medium")), summary := some "auto" }
      | some r => if ¬ jsTruthyStr r.summary then some { r with summary := some "auto" }
          else some r) := by
  unfold CodexExecutor.transformRequest
  show (includeStage _).reasoning = _
  rw [includeStage_reasoning]
  show (reasoningStage model _).reasoning = _
  rw [reasoningStage_reasoning]
  rw [stripSuffixStage_reasoning, forceStoreStage_reasoning, instructionsStage_reasoning,
    forceStreamStage_reasoning, defaultInputStage_reasoning, normalizeInputStage_reasoning]
  rw [stripSuffixStage_reasoningEffort, forceStoreStage_reasoningEffort,
    instructionsStage_reasoningEffort, forceStreamStage_reasoningEffort,
    defaultInputStage_reasoningEffort, normalizeInputStage_reasoningEffort]

/-- C6: for every model and body, `transformRequest` forces `stream = true`
and `store = false` and strips every unsupported parameter; when the model
name ends in `-low`/`-medium`/`-high`/`-xhigh` and the body carries no
explicit reasoning (neither a `reasoning` object nor a `reasoning_effort`
parameter), the resulting `reasoning.effort` is that suffix; and whenever the
resulting reasoning effort is a string other than `"none"`, `include` is set
to `["reasoning.encrypted_content"]`. -/
theorem codexTransformRequest_spec (model : String) (body : CodexRequestBody) :
    ((CodexExecutor.transformRequest model body).stream = some true
      ∧ (CodexExecutor.transformRequest model body).store = some false
      ∧ (CodexExecutor.transformRequest model body).temperature = none
      ∧ (CodexExecutor.transformRequest model body).top_p = none
      ∧ (CodexExecutor.transformRequest model body).frequency_penalty = none
      ∧ (CodexExecutor.transformRequest model body).presence_penalty = none
      ∧ (CodexExecutor.transformRequest model body).n = none
      ∧ (CodexExecutor.transformRequest model body).seed = none
      ∧ (CodexExecutor.transformRequest model body).max_tokens = none
      ∧ (CodexExecutor.transformRequest model body).user = none
      ∧ (CodexExecutor.transformRequest model body).metadata = none
      ∧ (CodexExecutor.transformRequest model body).stream_options = none
      ∧ (CodexExecutor.transformRequest model body).prompt_cache_retention = none
      ∧ (CodexExecutor.transformRequest model body).safety_identifier = none
      ∧ (CodexExecutor.transformRequest model body).logprobs = none
      ∧ (CodexExecutor.transformRequest model body).top_logprobs = none)
    ∧ (∀ level ∈ ["low", "medium", "high", "xhigh"],
        jsEndsWith model ("-" ++ level) = true →
        body.reasoning = none → body.reasoning_effort = none →
        (CodexExecutor.transformRequest model body).reasoning
          = some { effort := some level, summary := some "auto" })
    ∧ (∀ r e, (CodexExecutor.transformRequest model body).reasoning = some r →
        r.effort = some e → e ≠ "" → e ≠ "none" →
        (CodexExecutor.transformRequest model body).includeParam
          = some ["reasoning.encrypted_content"]) := by
  refine ⟨?_, ?_, ?_⟩
  · refine ⟨?_, ?_, rfl, rfl, rfl, rfl, rfl, rfl, rfl, rfl, rfl, rfl, rfl, rfl, rfl, rfl⟩
    · unfold CodexExecutor.transformRequest
      show (includeStage _).stream = some true
      rw [includeStage_stream]
      show (reasoningStage model _).stream = some true
      rw [reasoningStage_stream, stripSuffixStage_stream, forceStoreStage_stream,
        instructionsStage_stream]
      rfl
    · unfold CodexExecutor.transformRequest
      show (includeStage _).store = some false
      rw [includeStage_store]
      show (reasoningStage model _).store = some false
      rw [reasoningStage_store, stripSuffixStage_store]
      rfl
  · intro level hlev hends hre href
    have hlevne : level ≠ "" := by
      simp only [List.mem_cons, List.not_mem_nil, or_false] at hlev
      rcases hlev with rfl | rfl | rfl | rfl <;> decide
    have hfind : codexModelEffort model = some level := codexSuffix_unique model level hlev hends
    rw [codexTransform_reasoning, hre]
    simp only [hfind, href]
    simp [jsOrStr, jsStrOrNull, hlevne]
  · intro r e hr he hne hnn
    rw [codexTransform_reasoning] at hr
    unfold CodexExecutor.transformRequest
    show (includeStage _).includeParam = some ["reasoning.encrypted_content"]
    have hX : (deleteReasoningEffortStage (reasoningStage model
        (stripSuffixStage model (forceStoreStage (instructionsStage (forceStreamStage
          (defaultInputStage (normalizeInputStage body)))))))).reasoning = some r := by
      show (reasoningStage model _).reasoning = some r
      rw [reasoningStage_reasoning]
      rw [stripSuffixStage_reasoning, forceStoreStage_reasoning, instructionsStage_reasoning,
        forceStreamStage_reasoning, defaultInputStage_reasoning, normalizeInputStage_reasoning]
      rw [stripSuffixStage_reasoningEffort, forceStoreStage_reasoningEffort,
        instructionsStage_reasoningEffort, forceStreamStage_reasoningEffort,
        defaultInputStage_reasoningEffort, normalizeInputStage_reasoningEffort]
      exact hr
    unfold includeStage
    rw [hX]
    simp only [he]
    rw [if_pos (by simp [hne, hnn])]

/-- Witness for C6 at concrete inputs: on `gpt-5.3-codex-high` with a bare
body the resulting reasoning effort is `high`. -/
theorem codexTransformRequest_spec_witness :
    (CodexExecutor.transformRequest "gpt-5.3-codex-high"
        { input := none, stream := none, instructions := none, store := none
          model := "gpt-5.3-codex-high", reasoning := none, reasoning_effort := none
          includeParam := none, temperature := none, top_p := none
          frequency_penalty := none, presence_penalty := none, logprobs := none
          top_logprobs := none, n := none, seed := none, max_tokens := none
          user := none, prompt_cache_retention := none, metadata := none
          stream_options := none, safety_identifier := none, extra := 0 }).reasoning
      = some { effort := some "high", summary := some "auto" } :=
  (codexTransformRequest_spec "gpt-5.3-codex-high" _).2.1 "high" (by decide) (by decide)
    rfl rfl

/-! ## Cursor protobuf encoder (`cursorProtobuf.js`) -/

/-- UTF-8 bytes of a string, as `TextEncoder().encode`. -/
def utf8Bytes (s : String) : List Nat := s.toUTF8.toList.map (fun b => b.toNat)

/-- A value passed to `encodeField`: a number, a string, or raw bytes. -/
inductive PBVal where
  | num (n : Nat)
  | str (s : String)
  | bytes (bs : List Nat)
  deriving Repr, DecidableEq

/-- Protobuf varint encoding: 7 bits per byte, high bit marks continuation. -/
def encodeVarint (value : Nat) : List Nat :=
  if value ≥ 0x80 then ((value &&& 0x7f) ||| 0x80) :: encodeVarint (value >>> 7)
  else [value &&& 0x7f]
termination_by value
decreasing_by
  simp only [Nat.shiftRight_eq_div_pow]
  exact Nat.div_lt_self (by omega) (by norm_num)

/-- Protobuf field encoding: varint tag `(fieldNum << 3) | wireType`, then a
varint value (wire type 0) or a length-prefixed byte payload (wire type 2);
other wire types yield no bytes, as in the source. -/
def encodeField (fieldNum wireType : Nat) (value : PBVal) : List Nat :=
  let tagBytes := encodeVarint ((fieldNum <<< 3) ||| wireType)
  if wireType = 0 then
    tagBytes ++ encodeVarint (match value with | .num n => n | _ => 0)
  else if wireType = 2 then
    let dataBytes := match value with
      | .str s => utf8Bytes s
      | .bytes bs => bs
      | .num _ => []
    tagBytes ++ encodeVarint dataBytes.length ++ dataBytes
  else []

/-- A `tool_result` attached to a conversation message. -/
structure CursorToolResult where
  tool_name : Option String
  name : Option String
  raw_args : Option String
  result_content : Option String
  tool_call_id : Option String
  tool_index : Option Nat
  deriving Repr, DecidableEq

/-- One conversation message handed to `generateCursorBody`. -/
structure CursorMessage where
  role : String
  content : String
  tool_results : Option (List CursorToolResult)
  deriving Repr, DecidableEq

/-- One tool declaration; the input schema is abstracted to its JSON
serialisation, absent when the schema has no keys. -/
structure CursorTool where
  fnName : Option String
  name : Option String
  fnDescription : Option String
  description : Option String
  inputSchemaJson : Option String
  deriving Repr, DecidableEq

/-- The process/environment strings `encodeMetadata` reads. -/
structure CursorMetadata where
  platform : String
  arch : String
  version : String
  cwd : String
  timestamp : String
  deriving Repr, DecidableEq

/-- `formatToolName`: prefix `mcp_custom_` unless already `mcp_`-prefixed. -/
def formatToolName (name : String) : String :=
  if name.startsWith "mcp_" then name else "mcp_custom_" ++ name

/-- `parseToolId`: split at the first `"\nmc_"` delimiter into the external
tool-call id and the model-internal id. -/
def parseToolId (id : String) : String × Option String :=
  match id.splitOn "\nmc_" with
  | p0 :: p1 :: rest => (p0, some (String.intercalate "\nmc_" (p1 :: rest)))
  | _ => (id, none)

/-- `encodeMcpResult`. -/
def encodeMcpResult (selectedTool resultContent : String) : List Nat :=
  encodeField 1 2 (.str selectedTool) ++ encodeField 2 2 (.str resultContent)

/-- `encodeClientSideToolV2Result` (tool enum 19 = MCP). -/
def encodeClientSideToolV2Result (toolCallId : String) (modelCallId : Option String)
    (selectedTool resultContent : String) : List Nat :=
  encodeField 1 0 (.num 19)
  ++ encodeField 28 2 (.bytes (encodeMcpResult selectedTool resultContent))
  ++ encodeField 35 2 (.str toolCallId)
  ++ (match modelCallId with
    | some m => if m ≠ "" then encodeField 48 2 (.str m) else []
    | none => [])
  ++ encodeField 49 0 (.num 1)

/-- `encodeMcpParamsForCall`. -/
def encodeMcpParamsForCall (toolName rawArgs serverName : String) : List Nat :=
  encodeField 1 2 (.bytes
    (encodeField 1 2 (.str toolName) ++ encodeField 3 2 (.str rawArgs)
      ++ encodeField 4 2 (.str serverName)))

/-- `encodeClientSideToolV2Call`. -/
def encodeClientSideToolV2Call (toolCallId toolName mcpToolName rawArgs : String)
    (modelCallId : Option String) : List Nat :=
  encodeField 1 0 (.num 19)
  ++ encodeField 27 2 (.bytes (encodeMcpParamsForCall mcpToolName rawArgs "custom"))
  ++ encodeField 3 2 (.str toolCallId)
  ++ encodeField 9 2 (.str toolName)
  ++ encodeField 10 2 (.str rawArgs)
  ++ encodeField 48 0 (.num 1)
  ++ (match modelCallId with
    | some m => if m ≠ "" then encodeField 49 2 (.str m) else []
    | none => [])

/-- `encodeToolResult`. -/
def encodeToolResult (tr : CursorToolResult) : List Nat :=
  let originalName := jsOrStr tr.tool_name (jsOrStr tr.name "")
  let toolName := formatToolName originalName
  let rawArgs := jsOrStr tr.raw_args "\x7b\x7d"
  let resultContent := jsOrStr tr.result_content ""
  let parsed := parseToolId (jsOrStr tr.tool_call_id "")
  let toolCallId := parsed.1
  let modelCallId := parsed.2
  let mcpToolName := if toolName.startsWith "mcp_" then toolName.drop 4 else originalName
  encodeField 1 2 (.str toolCallId)
  ++ encodeField 2 2 (.str toolName)
  ++ encodeField 3 0 (.num (jsOrN tr.tool_index 1))
  ++ (match modelCallId with
    | some m => if m ≠ "" then encodeField 12 2 (.str m) else []
    | none => [])
  ++ encodeField 5 2 (.str rawArgs)
  ++ encodeField 8 2 (.bytes
    (encodeClientSideToolV2Result toolCallId modelCallId mcpToolName resultContent))
  ++ encodeField 11 2 (.bytes
    (encodeClientSideToolV2Call toolCallId toolName mcpToolName rawArgs modelCallId))

/-- `encodeMessage` (field numbers of `ConversationMessage`). -/
def encodeMessage (content : String) (role : Nat) (messageId : String)
    (isLast hasTools : Bool) (toolResults : List CursorToolResult)
    (serverBubbleId : Option String) : List Nat :=
  encodeField 1 2 (.str content)
  ++ encodeField 2 0 (.num role)
  ++ encodeField 13 2 (.str messageId)
  ++ (match serverBubbleId with
    | some b => if b ≠ "" then encodeField 32 2 (.str b) else []
    | none => [])
  ++ (toolResults.map (fun tr => encodeField 18 2 (.bytes (encodeToolResult tr)))).flatten
  ++ encodeField 29 0 (.num (if hasTools then 1 else 0))
  ++ encodeField 47 0 (.num (if hasTools then 2 else 1))
  ++ (if isLast && hasTools then encodeField 51 2 (.bytes (encodeVarint 1)) else [])

/-- `encodeInstruction`. -/
def encodeInstruction (text : String) : List Nat :=
  if text ≠ "" then encodeField 1 2 (.str text) else []

/-- `encodeModel`. -/
def encodeModel (modelName : String) : List Nat :=
  encodeField 1 2 (.str modelName) ++ encodeField 4 2 (.bytes [])

/-- `encodeCursorSetting`. -/
def encodeCursorSetting : List Nat :=
  encodeField 1 2 (.str "cursor\\aisettings")
  ++ encodeField 3 2 (.bytes [])
  ++ encodeField 6 2 (.bytes (encodeField 1 2 (.bytes []) ++ encodeField 2 2 (.bytes [])))
  ++ encodeField 8 0 (.num 1)
  ++ encodeField 9 0 (.num 1)

/-- `encodeMetadata`. -/
def encodeMetadata (meta : CursorMetadata) : List Nat :=
  encodeField 1 2 (.str meta.platform)
  ++ encodeField 2 2 (.str meta.arch)
  ++ encodeField 3 2 (.str meta.version)
  ++ encodeField 4 2 (.str meta.cwd)
  ++ encodeField 5 2 (.str meta.timestamp)

/-- `encodeMessageId`. -/
def encodeMessageId (messageId : String) (role : Nat) (summaryId : Option String) :
    List Nat :=
  encodeField 1 2 (.str messageId)
  ++ (match summaryId with
    | some s => if s ≠ "" then encodeField 2 2 (.str s) else []
    | none => [])
  ++ encodeField 3 0 (.num role)

/-- `encodeMcpTool`. -/
def encodeMcpTool (tool : CursorTool) : List Nat :=
  let toolName := jsOrStr tool.fnName (jsOrStr tool.name "")
  let toolDesc := jsOrStr tool.fnDescription (jsOrStr tool.description "")
  (if toolName ≠ "" then encodeField 1 2 (.str toolName) else [])
  ++ (if toolDesc ≠ "" then encodeField 2 2 (.str toolDesc) else [])
  ++ (match tool.inputSchemaJson with
    | some j => encodeField 3 2 (.str j)
    | none => [])
  ++ encodeField 4 2 (.str "custom")

/-- The numeric role of a message: USER = 1, everything else ASSISTANT = 2. -/
def cursorRole (msg : CursorMessage) : Nat := if msg.role = "user" then 1 else 2

/-- `encodeRequest` (`StreamUnifiedChatRequest`): per-message ids come from
the injected `uuid` supply, the conversation id and metadata are injected as
well (the source draws them from `uuidv4()` and `process`). -/
def encodeRequest (messages : List CursorMessage) (modelName : String)
    (tools : List CursorTool) (reasoningEffort : Option String)
    (uuid : Nat → String) (convId : String) (meta : CursorMetadata) : List Nat :=
  let hasTools := tools.length > 0
  let isAgentic := hasTools
  let thinkingLevel : Nat :=
    if reasoningEffort = some "medium" then 1
    else if reasoningEffort = some "high" then 2
    else 0
  (messages.enum.map (fun p =>
    encodeField 1 2 (.bytes (encodeMessage p.2.content (cursorRole p.2) (uuid p.1)
      (p.1 = messages.length - 1) hasTools (p.2.tool_results.getD []) none)))).flatten
  ++ encodeField 2 0 (.num 1)
  ++ encodeField 3 2 (.bytes (encodeInstruction ""))
  ++ encodeField 4 0 (.num 1)
  ++ encodeField 5 2 (.bytes (encodeModel modelName))
  ++ encodeField 8 2 (.str "")
  ++ encodeField 13 0 (.num 1)
  ++ encodeField 15 2 (.bytes encodeCursorSetting)
  ++ encodeField 19 0 (.num 1)
  ++ encodeField 23 2 (.str convId)
  ++ encodeField 26 2 (.bytes (encodeMetadata meta))
  ++ encodeField 27 0 (.num (if isAgentic then 1 else 0))
  ++ (if isAgentic then encodeField 29 2 (.bytes (encodeVarint 1)) else [])
  ++ (messages.enum.map (fun p =>
    encodeField 30 2 (.bytes (encodeMessageId (uuid p.1) (cursorRole p.2) none)))).flatten
  ++ (tools.map (fun t => encodeField 34 2 (.bytes (encodeMcpTool t)))).flatten
  ++ encodeField 35 0 (.num 0)
  ++ encodeField 38 0 (.num 0)
  ++ encodeField 46 0 (.num (if isAgentic then 2 else 1))
  ++ encodeField 47 2 (.str "")
  ++ encodeField 48 0 (.num (if isAgentic then 0 else 1))
  ++ encodeField 49 0 (.num thinkingLevel)
  ++ encodeField 51 0 (.num 0)
  ++ encodeField 53 0 (.num 1)
  ++ encodeField 54 2 (.str (if isAgentic then "Agent" else "Ask"))

/-- `buildChatRequest`: the request wrapped as field 1 of
`StreamUnifiedChatRequestWithTools`. -/
def buildChatRequest (messages : List CursorMessage) (modelName : String)
    (tools : List CursorTool) (reasoningEffort : Option String)
    (uuid : Nat → String) (convId : String) (meta : CursorMetadata) : List Nat :=
  encodeField 1 2 (.bytes (encodeRequest messages modelName tools reasoningEffort
    uuid convId meta))

/-- `wrapConnectRPCFrame` on the `compress = false` path (the only one
`generateCursorBody` uses): flag byte 0, four big-endian length bytes, then
the payload. -/
def wrapConnectRPCFrame (payload : List Nat) : List Nat :=
  0 :: ((payload.length >>> 24) &&& 0xff)
    :: ((payload.length >>> 16) &&& 0xff)
    :: ((payload.length >>> 8) &&& 0xff)
    :: (payload.length &&& 0xff)
    :: payload

/-- `generateCursorBody`: the protobuf chat request in a Connect frame. -/
def generateCursorBody (messages : List CursorMessage) (modelName : String)
    (tools : List CursorTool) (reasoningEffort : Option String)
    (uuid : Nat → String) (convId : String) (meta : CursorMetadata) : List Nat :=
  wrapConnectRPCFrame (buildChatRequest messages modelName tools reasoningEffort
    uuid convId meta)

/-- C8: the Cursor request body is the protobuf payload behind a 5-byte
Connect frame header whose flag byte is 0 and whose next four bytes are the
big-endian payload length (faithful whenever the length fits 32 bits, as any
real payload does); the total length is exactly 5 plus the payload length. -/
theorem generateCursorBody_frame (messages : List CursorMessage) (modelName : String)
    (tools : List CursorTool) (reasoningEffort : Option String)
    (uuid : Nat → String) (convId : String) (meta : CursorMetadata) :
    generateCursorBody messages modelName tools reasoningEffort uuid convId meta
      = 0 :: (((buildChatRequest messages modelName tools reasoningEffort uuid convId
            meta).length >>> 24) &&& 255)
        :: (((buildChatRequest messages modelName tools reasoningEffort uuid convId
            meta).length >>> 16) &&& 255)
        :: (((buildChatRequest messages modelName tools reasoningEffort uuid convId
            meta).length >>> 8) &&& 255)
        :: ((buildChatRequest messages modelName tools reasoningEffort uuid convId
            meta).length &&& 255)
        :: buildChatRequest messages modelName tools reasoningEffort uuid convId meta
    ∧ (generateCursorBody messages modelName tools reasoningEffort uuid convId meta).length
      = 5 + (buildChatRequest messages modelName tools reasoningEffort uuid convId
          meta).length
    ∧ (∀ len : Nat, len < 2 ^ 32 →
        ((len >>> 24) &&& 255) * 2 ^ 24 + ((len >>> 16) &&& 255) * 2 ^ 16
          + ((len >>> 8) &&& 255) * 2 ^ 8 + (len &&& 255) = len) := by
  refine ⟨rfl, by simp [generateCursorBody, wrapConnectRPCFrame]; omega, ?_⟩
  intro len hlen
  have h255 : ∀ x : Nat, x &&& 255 = x % 2 ^ 8 := fun x => by
    have := Nat.and_pow_two_sub_one_eq_mod x 8
    norm_num at this ⊢
    exact this
  simp only [Nat.shiftRight_eq_div_pow, h255]
  omega

/-- Witness for C8 at a concrete input: total length is 5 plus the payload
length, and the big-endian bytes reconstruct the length 300. -/
theorem generateCursorBody_frame_witness :
    (generateCursorBody [] "m" [] none (fun _ => "u") "c"
        ⟨"linux", "x64", "v20", "/", "t"⟩).length
      = 5 + (buildChatRequest [] "m" [] none (fun _ => "u") "c"
          ⟨"linux", "x64", "v20", "/", "t"⟩).length
    ∧ ((300 >>> 24) &&& 255) * 2 ^ 24 + ((300 >>> 16) &&& 255) * 2 ^ 16
        + ((300 >>> 8) &&& 255) * 2 ^ 8 + (300 &&& 255) = 300 :=
  ⟨(generateCursorBody_frame [] "m" [] none (fun _ => "u") "c"
      ⟨"linux", "x64", "v20", "/", "t"⟩).2.1,
   (generateCursorBody_frame [] "m" [] none (fun _ => "u") "c"
      ⟨"linux", "x64", "v20", "/", "t"⟩).2.2 300 (by norm_num)⟩

/-! ## Cursor protobuf decoding and the SSE transform -/

/-- UTF-8 decoding as a JS `TextDecoder` (non-fatal): multi-byte sequences
are assembled, anything malformed yields U+FFFD. -/
def utf8Decode : List Nat → List Char
  | [] => []
  | b1 :: rest =>
    if b1 < 0x80 then Char.ofNat b1 :: utf8Decode rest
    else if 0xc0 ≤ b1 ∧ b1 < 0xe0 then
      match rest with
      | b2 :: rest2 =>
        if 0x80 ≤ b2 ∧ b2 < 0xc0 then
          Char.ofNat ((b1 - 0xc0) * 64 + (b2 - 0x80)) :: utf8Decode rest2
        else (Char.ofNat 0xfffd) :: utf8Decode (b2 :: rest2)
      | [] => [Char.ofNat 0xfffd]
    else if 0xe0 ≤ b1 ∧ b1 < 0xf0 then
      match rest with
      | b2 :: b3 :: rest3 =>
        if (0x80 ≤ b2 ∧ b2 < 0xc0) ∧ (0x80 ≤ b3 ∧ b3 < 0xc0) then
          Char.ofNat ((b1 - 0xe0) * 4096 + (b2 - 0x80) * 64 + (b3 - 0x80))
            :: utf8Decode rest3
        else (Char.ofNat 0xfffd) :: utf8Decode (b2 :: b3 :: rest3)
      | [b2] => (Char.ofNat 0xfffd) :: utf8Decode [b2]
      | [] => [Char.ofNat 0xfffd]
    else if 0xf0 ≤ b1 ∧ b1 < 0xf8 then
      match rest with
      | b2 :: b3 :: b4 :: rest4 =>
        if (0x80 ≤ b2 ∧ b2 < 0xc0) ∧ (0x80 ≤ b3 ∧ b3 < 0xc0) ∧ (0x80 ≤ b4 ∧ b4 < 0xc0) then
          Char.ofNat ((b1 - 0xf0) * 262144 + (b2 - 0x80) * 4096 + (b3 - 0x80) * 64
              + (b4 - 0x80)) :: utf8Decode rest4
        else (Char.ofNat 0xfffd) :: utf8Decode (b2 :: b3 :: b4 :: rest4)
      | [b2, b3] => (Char.ofNat 0xfffd) :: utf8Decode [b2, b3]
      | [b2] => (Char.ofNat 0xfffd) :: utf8Decode [b2]
      | [] => [Char.ofNat 0xfffd]
    else (Char.ofNat 0xfffd) :: utf8Decode rest

/-- `TextDecoder().decode` to a string. -/
def utf8DecodeStr (bs : List Nat) : String := ⟨utf8Decode bs⟩

/-- A decoded protobuf field value: varint number, raw bytes, or the `null`
the source stores for unknown wire types. -/
inductive PBDecVal where
  | num (n : Nat)
  | bytes (bs : List Nat)
  | nullv
  deriving Repr, DecidableEq

/-- The loop of `decodeVarint`: accumulate 7-bit groups until a byte without
the continuation bit (or the end of the buffer). -/
def decodeVarintGo (buffer : List Nat) (pos shift result : Nat) : Nat × Nat :=
  if h : pos < buffer.length then
    let b := buffer.getD pos 0
    let result' := result ||| ((b &&& 0x7f) <<< shift)
    if b &&& 0x80 = 0 then (result', pos + 1)
    else decodeVarintGo buffer (pos + 1) (shift + 7) result'
  else (result, pos)
termination_by buffer.length - pos

/-- `decodeVarint`: value and next position. -/
def decodeVarint (buffer : List Nat) (offset : Nat) : Nat × Nat :=
  decodeVarintGo buffer offset 0 0

theorem decodeVarintGo_ge_fuel (buffer : List Nat) :
    ∀ fuel pos shift result, buffer.length - pos ≤ fuel →
      pos ≤ (decodeVarintGo buffer pos shift result).2 := by
  intro fuel
  induction fuel with
  | zero =>
    intro pos shift result hf
    rw [decodeVarintGo]
    split
    · next h => omega
    · simp
  | succ fuel ih =>
    intro pos shift result hf
    rw [decodeVarintGo]
    split
    · next h =>
      dsimp only
      split
      · simp
      · have := ih (pos + 1) (shift + 7)
          (result ||| ((buffer.getD pos 0 &&& 0x7f) <<< shift)) (by omega)
        omega
    · simp

theorem decodeVarintGo_ge (buffer : List Nat) (pos shift result : Nat) :
    pos ≤ (decodeVarintGo buffer pos shift result).2 :=
  decodeVarintGo_ge_fuel buffer (buffer.length - pos) pos shift result (le_refl _)

theorem decodeVarintGo_gt (buffer : List Nat) (pos shift result : Nat)
    (h : pos < buffer.length) : pos < (decodeVarintGo buffer pos shift result).2 := by
  rw [decodeVarintGo]
  rw [dif_pos h]
  dsimp only
  split
  · simp
  · have := decodeVarintGo_ge buffer (pos + 1) (shift + 7)
      (result ||| ((buffer.getD pos 0 &&& 0x7f) <<< shift))
    omega

theorem decodeVarint_gt (buffer : List Nat) (offset : Nat) (h : offset < buffer.length) :
    offset < (decodeVarint buffer offset).2 :=
  decodeVarintGo_gt buffer offset 0 0 h

theorem decodeVarint_ge (buffer : List Nat) (offset : Nat) :
    offset ≤ (decodeVarint buffer offset).2 :=
  decodeVarintGo_ge buffer offset 0 0

/-- `decodeField`: `none` when past the end (the source's null field number),
else field number, wire type, value and next position. -/
def decodeField (buffer : List Nat) (offset : Nat) :
    Option (Nat × Nat × PBDecVal × Nat) :=
  if offset ≥ buffer.length then none
  else
    let d1 := decodeVarint buffer offset
    let fieldNum := d1.1 >>> 3
    let wireType := d1.1 &&& 0x07
    if wireType = 0 then
      let d2 := decodeVarint buffer d1.2
      some (fieldNum, wireType, .num d2.1, d2.2)
    else if wireType = 2 then
      let d2 := decodeVarint buffer d1.2
      some (fieldNum, wireType, .bytes ((buffer.drop d2.2).take d2.1), d2.2 + d2.1)
    else if wireType = 1 then
      some (fieldNum, wireType, .bytes ((buffer.drop d1.2).take 8), d1.2 + 8)
    else if wireType = 5 then
      some (fieldNum, wireType, .bytes ((buffer.drop d1.2).take 4), d1.2 + 4)
    else
      some (fieldNum, wireType, .nullv, d1.2)

theorem decodeField_gt (buffer : List Nat) (offset : Nat) (f w : Nat) (v : PBDecVal)
    (p : Nat) (h : decodeField buffer offset = some (f, w, v, p)) : offset < p := by
  unfold decodeField at h
  split at h
  · cases h
  · next hoff =>
    have hlt : offset < buffer.length := by omega
    have h1 := decodeVarint_gt buffer offset hlt
    have h2 := decodeVarint_ge buffer (decodeVarint buffer offset).2
    dsimp only at h
    split at h
    · cases h; omega
    · split at h
      · cases h; omega
      · split at h
        · cases h; omega
        · split at h
          · cases h; omega
          · cases h; omega

/-- The multimap `decodeMessage` builds: field number to the pushed
`(wireType, value)` pairs, in insertion order. -/
abbrev PBFields := List (Nat × List (Nat × PBDecVal))

/-- `fields.get(k).push(v)` with `set(k, [])` when absent. -/
def mapPush (fields : PBFields) (k : Nat) (v : Nat × PBDecVal) : PBFields :=
  if (fields.any (fun e => e.1 = k)) then
    fields.map (fun e => if e.1 = k then (e.1, e.2 ++ [v]) else e)
  else fields ++ [(k, [v])]

/-- `fields.get(k)[0]`. -/
def fieldsFirst (fields : PBFields) (k : Nat) : Option (Nat × PBDecVal) :=
  (List.lookup k fields).bind List.head?

/-- The loop of `decodeMessage`. -/
def decodeMessageGo (buffer : List Nat) (pos : Nat) (fields : PBFields) : PBFields :=
  if pos < buffer.length then
    match h : decodeField buffer pos with
    | none => fields
    | some (fieldNum, wireType, value, newPos) =>
      decodeMessageGo buffer newPos (mapPush fields fieldNum (wireType, value))
  else fields
termination_by buffer.length - pos
decreasing_by
  have := decodeField_gt buffer pos fieldNum wireType value newPos h
  omega

/-- `decodeMessage`. -/
def decodeMessage (data : List Nat) : PBFields := decodeMessageGo data 0 []

/-- `TextDecoder().decode` of a stored field value; the source only meets
byte values here (a varint would make the JS decoder throw). -/
def decodePBStr (v : PBDecVal) : String :=
  match v with
  | .bytes bs => utf8DecodeStr bs
  | _ => ""

/-- The bytes of a stored field value, the empty buffer otherwise (a
non-buffer makes the source's inner `decodeMessage` read nothing). -/
def decodePBBytes (v : PBDecVal) : List Nat :=
  match v with
  | .bytes bs => bs
  | _ => []

/-- A decoded tool call, as the OpenAI-format object the source builds. -/
structure CursorToolCall where
  id : String
  name : String
  arguments : String
  isLast : Bool
  deriving Repr, DecidableEq

/-- `extractToolCall`: id (first line), name, `is_last`, and the nested MCP
name/raw arguments with the flat `raw_args` as fallback. -/
def extractToolCall (toolCallData : List Nat) : Option CursorToolCall :=
  let toolCall := decodeMessage toolCallData
  let toolCallId := match fieldsFirst toolCall 3 with
    | some (_, v) => ((decodePBStr v).splitOn "\n").headD ""
    | none => ""
  let toolName0 := match fieldsFirst toolCall 9 with
    | some (_, v) => decodePBStr v
    | none => ""
  let isLast := match fieldsFirst toolCall 11 with
    | some (_, .num n) => decide (n ≠ 0)
    | some (_, _) => true
    | none => false
  let nested : String × String := match fieldsFirst toolCall 27 with
    | some (_, v) =>
      let mcpParams := decodeMessage (decodePBBytes v)
      match fieldsFirst mcpParams 1 with
      | some (_, tv) =>
        let tool := decodeMessage (decodePBBytes tv)
        ((match fieldsFirst tool 1 with
          | some (_, nv) => decodePBStr nv
          | none => toolName0),
         (match fieldsFirst tool 3 with
          | some (_, pv) => decodePBStr pv
          | none => ""))
      | none => (toolName0, "")
    | none => (toolName0, "")
  let toolName := nested.1
  let rawArgs0 := nested.2
  let rawArgs := if rawArgs0 = "" then
      match fieldsFirst toolCall 10 with
      | some (_, v) => decodePBStr v
      | none => ""
    else rawArgs0
  if toolCallId ≠ "" ∧ toolName ≠ "" then
    some { id := toolCallId, name := toolName
           arguments := if rawArgs = "" then "\x7b\x7d" else rawArgs
           isLast := isLast }
  else none

/-- What `extractTextFromResponse` hands back; the source's `error` slot is
always `null` and is omitted. -/
structure ExtractResult where
  text : Option String
  toolCall : Option CursorToolCall
  thinking : Option String
  deriving Repr, DecidableEq

/-- `extractTextAndThinking` on a `StreamUnifiedChatResponse` payload. -/
def extractTextAndThinking (responseData : List Nat) : Option String × Option String :=
  let nested := decodeMessage responseData
  let text := match fieldsFirst nested 1 with
    | some (_, v) => some (decodePBStr v)
    | none => none
  let thinking := match fieldsFirst nested 25 with
    | some (_, v) =>
      let thinkingMsg := decodeMessage (decodePBBytes v)
      match fieldsFirst thinkingMsg 1 with
      | some (_, tv) => some (decodePBStr tv)
      | none => none
    | none => none
  (text, thinking)

/-- `extractTextFromResponse`: a tool call from field 1 when one decodes,
else the text/thinking of field 2 when one of them is truthy, else nothing. -/
def extractTextFromResponse (payload : List Nat) : ExtractResult :=
  let fields := decodeMessage payload
  let tcOpt := match fieldsFirst fields 1 with
    | some (_, v) => extractToolCall (decodePBBytes v)
    | none => none
  match tcOpt with
  | some t => { text := none, toolCall := some t, thinking := none }
  | none =>
    match fieldsFirst fields 2 with
    | some (_, v) =>
      let tt := extractTextAndThinking (decodePBBytes v)
      if jsTruthyStr tt.1 || jsTruthyStr tt.2 then
        { text := tt.1, toolCall := none, thinking := tt.2 }
      else { text := none, toolCall := none, thinking := none }
    | none => { text := none, toolCall := none, thinking := none }

/-! ## The SSE chunks `transformProtobufToSSE` emits -/

/-- The delta object of one OpenAI chunk the transform serialises. -/
inductive CursorDelta where
  | roleContent (content : String)
  | toolCall (index : Nat) (tc : CursorToolCall)
  | contentOnly (content : String)
  | empty
  deriving Repr, DecidableEq

/-- One `chat.completion.chunk` object of the synthesised stream. -/
structure CursorChunk where
  id : String
  created : Nat
  model : String
  delta : CursorDelta
  finish_reason : Option String
  usage : Option (Nat × Nat × Nat)
  deriving Repr, DecidableEq

/-- `JSON.stringify` of a delta object, in source key order. -/
def stringifyDelta : CursorDelta → String
  | .roleContent s => "\x7b\"role\":\"assistant\",\"content\":" ++ jsonQuote s ++ "\x7d"
  | .toolCall i tc =>
    "\x7b\"tool_calls\":[\x7b\"index\":" ++ toString i ++ ",\"id\":" ++ jsonQuote tc.id
      ++ ",\"type\":\"function\",\"function\":\x7b\"name\":" ++ jsonQuote tc.name
      ++ ",\"arguments\":" ++ jsonQuote tc.arguments ++ "\x7d,\"isLast\":"
      ++ (if tc.isLast then "true" else "false") ++ "\x7d]\x7d"
  | .contentOnly s => "\x7b\"content\":" ++ jsonQuote s ++ "\x7d"
  | .empty => "\x7b\x7d"

/-- `JSON.stringify` of a chunk object, in source key order. -/
def stringifyChunk (c : CursorChunk) : String :=
  "\x7b\"id\":" ++ jsonQuote c.id
    ++ ",\"object\":\"chat.completion.chunk\",\"created\":" ++ toString c.created
    ++ ",\"model\":" ++ jsonQuote c.model
    ++ ",\"choices\":[\x7b\"index\":0,\"delta\":" ++ stringifyDelta c.delta
    ++ ",\"finish_reason\":"
    ++ (match c.finish_reason with | some s => jsonQuote s | none => "null")
    ++ "\x7d]"
    ++ (match c.usage with
      | some u => ",\"usage\":\x7b\"prompt_tokens\":" ++ toString u.1
          ++ ",\"completion_tokens\":" ++ toString u.2.1
          ++ ",\"total_tokens\":" ++ toString u.2.2 ++ "\x7d"
      | none => "")
    ++ "\x7d"

/-- One SSE frame: `data: {json}\n\n`. -/
def chunkToSSE (c : CursorChunk) : String := "data: " ++ stringifyChunk c ++ "\n\n"

/-- A chunk with no finish reason and no usage. -/
def plainChunk (responseId : String) (created : Nat) (model : String)
    (delta : CursorDelta) : CursorChunk :=
  { id := responseId, created := created, model := model, delta := delta
    finish_reason := none, usage := none }

/-- The closing chunk: empty delta, finish reason, synthesised usage. -/
def cursorFinalChunk (responseId : String) (created : Nat) (model : String)
    (totalLen : Nat) (anyToolCall : Bool) : CursorChunk :=
  { id := responseId, created := created, model := model, delta := .empty
    finish_reason := some (if anyToolCall then "tool_calls" else "stop")
    usage := some (0, max 1 (totalLen / 4), max 1 (totalLen / 4)) }

/-- The response envelope of the Cursor executor transform. -/
structure CursorResponse where
  status : Nat
  body : String
  contentType : String
  deriving Repr, DecidableEq

/-- The big-endian 32-bit length of a Connect frame header. -/
def be32 (b1 b2 b3 b4 : Nat) : Nat := b1 * 16777216 + b2 * 65536 + b3 * 256 + b4

/-- The per-frame accumulator update of the transform loop: push the
role/tool-call chunks for a decoded tool call, then the text chunk, keeping
the running content length. -/
def ssePush (responseId : String) (created : Nat) (model : String)
    (result : ExtractResult) (chunks : List CursorChunk) (totalLen : Nat)
    (toolCalls : List CursorToolCall) :
    List CursorChunk × Nat × List CursorToolCall :=
  let step1 : List CursorChunk × List CursorToolCall :=
    match result.toolCall with
    | some tc =>
      let toolCalls' := toolCalls ++ [tc]
      let chunks' := if chunks.length = 0 then
          chunks ++ [plainChunk responseId created model (.roleContent "")]
        else chunks
      (chunks' ++ [plainChunk responseId created model
        (.toolCall (toolCalls'.length - 1) tc)], toolCalls')
    | none => (chunks, toolCalls)
  let step2 : List CursorChunk × Nat :=
    match result.text with
    | some t =>
      if t ≠ "" then
        (step1.1 ++ [plainChunk responseId created model
          (if step1.1.length = 0 ∧ step1.2.length = 0 then .roleContent t
           else .contentOnly t)], totalLen + t.length)
      else (step1.1, totalLen)
    | none => (step1.1, totalLen)
  (step2.1, step2.2, step1.2)

/-- The frame loop of `transformProtobufToSSE`.  `gunzip` abstracts
`zlib.gunzipSync` (`none` = decompression failed, frame skipped), `parseErr`
abstracts `JSON.parse` + `createErrorResponse` on an error payload (`none` =
the parse threw and the source falls through to protobuf extraction).
Returns the early error response or the accumulated chunks, total content
length and tool calls. -/
def sseLoop (gunzip : List Nat → Option (List Nat))
    (parseErr : String → Option CursorResponse)
    (responseId : String) (created : Nat) (model : String)
    (remaining : List Nat) (chunks : List CursorChunk) (totalLen : Nat)
    (toolCalls : List CursorToolCall) :
    Except CursorResponse (List CursorChunk × Nat × List CursorToolCall) :=
  if remaining.length < 5 then .ok (chunks, totalLen, toolCalls)
  else
    let flags := remaining.getD 0 0
    let len := be32 (remaining.getD 1 0) (remaining.getD 2 0) (remaining.getD 3 0)
      (remaining.getD 4 0)
    if h5 : remaining.length < 5 + len then .ok (chunks, totalLen, toolCalls)
    else
      let payload := (remaining.drop 5).take len
      let rest := remaining.drop (5 + len)
      match (if flags = 1 ∨ flags = 2 ∨ flags = 3 then gunzip payload
        else some payload) with
      | none => sseLoop gunzip parseErr responseId created model rest chunks
          totalLen toolCalls
      | some payload' =>
        let text := utf8DecodeStr payload'
        match (if text.startsWith "\x7b" && containsSub text "\"error\"" then
            parseErr text
          else none) with
        | some resp => .error resp
        | none =>
          let out := ssePush responseId created model
            (extractTextFromResponse payload') chunks totalLen toolCalls
          sseLoop gunzip parseErr responseId created model rest out.1 out.2.1 out.2.2
termination_by remaining.length
decreasing_by
  all_goals
    simp only [List.length_drop]
    omega

/-- `transformProtobufToSSE`: run the frame loop, pad an empty stream with an
assistant-role chunk, close with the finish chunk and `data: [DONE]`. -/
def transformProtobufToSSE (gunzip : List Nat → Option (List Nat))
    (parseErr : String → Option CursorResponse)
    (buffer : List Nat) (model : String) (responseId : String) (created : Nat) :
    CursorResponse :=
  match sseLoop gunzip parseErr responseId created model buffer [] 0 [] with
  | .error resp => resp
  | .ok (chunks, totalLen, toolCalls) =>
    let chunks := if chunks.length = 0 ∧ toolCalls.length = 0 then
        chunks ++ [plainChunk responseId created model (.roleContent "")]
      else chunks
    let allChunks := chunks
      ++ [cursorFinalChunk responseId created model totalLen (toolCalls.length > 0)]
    { status := 200
      body := String.join (allChunks.map chunkToSSE) ++ "data: [DONE]\n\n"
      contentType := "text/event-stream" }

/-- The claim-side reading of a buffer that contains no error payload: no
frame's (decompressed) payload decodes to text starting with `{` and
containing `"error"`. -/
def framesNoError (gunzip : List Nat → Option (List Nat))
    (remaining : List Nat) : Bool :=
  if remaining.length < 5 then true
    else
      let flags := remaining.getD 0 0
      let len := be32 (remaining.getD 1 0) (remaining.getD 2 0) (remaining.getD 3 0)
        (remaining.getD 4 0)
      if h5 : remaining.length < 5 + len then true
      else
        let payload := (remaining.drop 5).take len
        let rest := remaining.drop (5 + len)
        match (if flags = 1 ∨ flags = 2 ∨ flags = 3 then gunzip payload
          else some payload) with
        | none => framesNoError gunzip rest
        | some payload' =>
          let text := utf8DecodeStr payload'
          !(text.startsWith "\x7b" && containsSub text "\"error\"")
            && framesNoError gunzip rest
termination_by remaining.length
decreasing_by
  all_goals
    simp only [List.length_drop]
    omega

/-- An accumulator whose first chunk, when one exists, is a plain
assistant-role chunk, and which has no tool calls while it has no chunks. -/
def sseAccInv (responseId : String) (created : Nat) (model : String)
    (chunks : List CursorChunk) (toolCalls : List CursorToolCall) : Prop :=
  (chunks = [] → toolCalls = []) ∧
  (chunks = [] ∨ ∃ s,
    chunks.head? = some (plainChunk responseId created model (.roleContent s)))

theorem ssePush_inv (rid : String) (cr : Nat) (md : String)
    (result : ExtractResult) (chunks : List CursorChunk) (tl : Nat)
    (tc : List CursorToolCall) (h : sseAccInv rid cr md chunks tc) :
    sseAccInv rid cr md (ssePush rid cr md result chunks tl tc).1
      (ssePush rid cr md result chunks tl tc).2.2 := by
  obtain ⟨h1, h2⟩ := h
  rcases hres : result.toolCall with _ | t
  · rcases htext : result.text with _ | s
    · simp only [ssePush, hres, htext]
      exact ⟨h1, h2⟩
    · by_cases hs : s = ""
      · simp [ssePush, hres, htext, hs]
        exact ⟨h1, h2⟩
      · rcases h2 with hnil | ⟨s0, hsr⟩
        · subst hnil
          have htc : tc = [] := h1 rfl
          subst htc
          simp [ssePush, sseAccInv, hres, htext, hs]
          exact ⟨_, rfl⟩
        · simp only [ssePush, hres, htext]
          simp only [ne_eq, hs, not_false_eq_true, if_true]
          rw [List.head?_eq_some_iff] at hsr
          obtain ⟨ys, hys⟩ := hsr
          subst hys
          exact ⟨by simp, Or.inr ⟨s0, by simp⟩⟩
  · rcases h2 with hnil | ⟨s0, hsr⟩
    · subst hnil
      have htc : tc = [] := h1 rfl
      subst htc
      rcases htext : result.text with _ | s
      · simp [ssePush, sseAccInv, hres, htext]
        exact ⟨_, rfl⟩
      · by_cases hs : s = ""
        · simp [ssePush, sseAccInv, hres, htext, hs]
          exact ⟨_, rfl⟩
        · simp [ssePush, sseAccInv, hres, htext, hs]
          exact ⟨_, rfl⟩
    · rw [List.head?_eq_some_iff] at hsr
      obtain ⟨ys, hys⟩ := hsr
      subst hys
      rcases htext : result.text with _ | s
      · simp [ssePush, sseAccInv, hres, htext]
        exact ⟨_, rfl⟩
      · by_cases hs : s = ""
        · simp [ssePush, sseAccInv, hres, htext, hs]
          exact ⟨_, rfl⟩
        · simp [ssePush, sseAccInv, hres, htext, hs]
          exact ⟨_, rfl⟩

theorem sseLoop_ok (gunzip : List Nat → Option (List Nat))
    (parseErr : String → Option CursorResponse)
    (rid : String) (cr : Nat) (md : String) :
    ∀ (n : Nat) (remaining : List Nat) (chunks : List CursorChunk)
      (tl : Nat) (tc : List CursorToolCall),
      remaining.length ≤ n →
      framesNoError gunzip remaining = true →
      sseAccInv rid cr md chunks tc →
      ∃ chunks' tl' tc',
        sseLoop gunzip parseErr rid cr md remaining chunks tl tc =
          .ok (chunks', tl', tc') ∧
        sseAccInv rid cr md chunks' tc' := by
  intro n
  induction n with
  | zero =>
    intro remaining chunks tl tc hlen _ hinv
    have h0 : remaining.length = 0 := Nat.le_zero.mp hlen
    rw [sseLoop, if_pos (by omega)]
    exact ⟨chunks, tl, tc, rfl, hinv⟩
  | succ n ih =>
    intro remaining chunks tl tc hlen hfne hinv
    rw [sseLoop]
    rw [framesNoError] at hfne
    by_cases hlt : remaining.length < 5
    · rw [if_pos hlt]
      exact ⟨chunks, tl, tc, rfl, hinv⟩
    · rw [if_neg hlt]
      rw [if_neg hlt] at hfne
      dsimp only at hfne ⊢
      by_cases h5 : remaining.length < 5 + be32 (remaining.getD 1 0)
          (remaining.getD 2 0) (remaining.getD 3 0) (remaining.getD 4 0)
      · rw [dif_pos h5]
        exact ⟨chunks, tl, tc, rfl, hinv⟩
      · rw [dif_neg h5]
        rw [dif_neg h5] at hfne
        have hrestlen : (remaining.drop (5 + be32 (remaining.getD 1 0)
            (remaining.getD 2 0) (remaining.getD 3 0) (remaining.getD 4 0))).length ≤ n := by
          simp only [List.length_drop]
          omega
        cases hgz : (if remaining.getD 0 0 = 1 ∨ remaining.getD 0 0 = 2 ∨
            remaining.getD 0 0 = 3 then
            gunzip ((remaining.drop 5).take (be32 (remaining.getD 1 0)
              (remaining.getD 2 0) (remaining.getD 3 0) (remaining.getD 4 0)))
          else some ((remaining.drop 5).take (be32 (remaining.getD 1 0)
            (remaining.getD 2 0) (remaining.getD 3 0) (remaining.getD 4 0)))) with
        | none =>
          rw [hgz] at hfne
          dsimp only at hfne ⊢
          exact ih _ chunks tl tc hrestlen hfne hinv
        | some payload' =>
          rw [hgz] at hfne
          dsimp only at hfne ⊢
          have hcond : ((utf8DecodeStr payload').startsWith "\x7b" &&
              containsSub (utf8DecodeStr payload') "\"error\"") = false := by
            cases hb : ((utf8DecodeStr payload').startsWith "\x7b" &&
                containsSub (utf8DecodeStr payload') "\"error\"") with
            | false => rfl
            | true => rw [hb] at hfne; simp at hfne
          rw [hcond] at hfne
          simp only [Bool.not_false, Bool.true_and] at hfne
          rw [hcond]
          simp only [Bool.false_eq_true, if_false]
          exact ih _ _ _ _ hrestlen hfne
            (ssePush_inv rid cr md (extractTextFromResponse payload') chunks tl tc hinv)

/-- C9: for every Connect-frame response buffer that contains no error
payload, `transformProtobufToSSE` produces a 200 `text/event-stream`
response whose body is a concatenation of frames each terminated by
`\n\n` (one per chunk, via `chunkToSSE`), starting with an assistant-role
delta chunk — emitted even when the buffer yields no text and no tool
calls — and ending with a chunk whose `finish_reason` is `tool_calls`
exactly when a tool call was decoded and `stop` otherwise, followed by the
terminator frame `data: [DONE]\n\n`. -/
theorem transformProtobufToSSE_sse (gunzip : List Nat → Option (List Nat))
    (parseErr : String → Option CursorResponse) (buffer : List Nat)
    (model responseId : String) (created : Nat)
    (hok : framesNoError gunzip buffer = true) :
    ∃ (chunks padded : List CursorChunk) (totalLen : Nat)
      (toolCalls : List CursorToolCall) (s : String) (rest : List CursorChunk),
      sseLoop gunzip parseErr responseId created model buffer [] 0 [] =
        .ok (chunks, totalLen, toolCalls) ∧
      padded = (if chunks.length = 0 ∧ toolCalls.length = 0 then
        chunks ++ [plainChunk responseId created model (.roleContent "")]
        else chunks) ∧
      padded = plainChunk responseId created model (.roleContent s) :: rest ∧
      transformProtobufToSSE gunzip parseErr buffer model responseId created =
        { status := 200
          body := String.join ((padded ++ [cursorFinalChunk responseId created
              model totalLen (decide (toolCalls.length > 0))]).map chunkToSSE)
            ++ "data: [DONE]\n\n"
          contentType := "text/event-stream" } := by
  obtain ⟨chunks, tl, tc, hloop, hinv1, hinv2⟩ :=
    sseLoop_ok gunzip parseErr responseId created model buffer.length buffer [] 0 []
      (le_refl _) hok ⟨fun _ => rfl, Or.inl rfl⟩
  rcases hinv2 with hnil | ⟨s0, hsr⟩
  · subst hnil
    have htc : tc = [] := hinv1 rfl
    subst htc
    refine ⟨[], [plainChunk responseId created model (.roleContent "")], tl, [],
      "", [], hloop, by simp, rfl, ?_⟩
    rw [transformProtobufToSSE, hloop]
    simp
  · rw [List.head?_eq_some_iff] at hsr
    obtain ⟨ys, hys⟩ := hsr
    subst hys
    refine ⟨plainChunk responseId created model (.roleContent s0) :: ys,
      plainChunk responseId created model (.roleContent s0) :: ys, tl, tc,
      s0, ys, hloop, by simp, rfl, ?_⟩
    rw [transformProtobufToSSE, hloop]
    simp

/-- The SSE transform theorem applied to the empty buffer. -/
theorem transformProtobufToSSE_sse_witness :
    framesNoError (fun _ => none) ([] : List Nat) = true ∧
    (transformProtobufToSSE (fun _ => none) (fun _ => none) [] "m" "rid" 0).status
      = 200 := by
  have h : framesNoError (fun _ => none) ([] : List Nat) = true := by
    rw [framesNoError]
    rfl
  obtain ⟨chunks, padded, tlen, tcs, s, rest, hloop, hpad, hhead, heq⟩ :=
    transformProtobufToSSE_sse (fun _ => none) (fun _ => none) [] "m" "rid" 0 h
  exact ⟨h, by rw [heq]⟩


/-- A JSON value. -/
inductive JValue where
  | null
  | bool (b : Bool)
  | num (n : Int)
  | str (s : String)
  | arr (elems : List JValue)
  | obj (fields : List (String × JValue))

/-- The UNSUPPORTED_SCHEMA_CONSTRAINTS list of geminiHelper.js. -/
def UNSUPPORTED_SCHEMA_CONSTRAINTS : List String := [
  "minLength", "maxLength", "exclusiveMinimum", "exclusiveMaximum",
  "pattern", "minItems", "maxItems", "format",
  "default", "examples",
  "$schema", "$defs", "definitions", "const", "$ref",
  "additionalProperties", "propertyNames", "patternProperties",
  "anyOf", "oneOf", "allOf", "not",
  "dependencies", "dependentSchemas", "dependentRequired",
  "title", "if", "then", "else", "contentMediaType", "contentEncoding"]

/-- JS test `value && typeof value === "object"`: arrays and objects (null is falsy). -/
def jsIsObject : JValue → Bool
  | .arr _ => true
  | .obj _ => true
  | _ => false

/-- JS truthiness of a JSON value. -/
def jvTruthy : JValue → Bool
  | .null => false
  | .bool b => b
  | .num n => decide (n ≠ 0)
  | .str s => decide (s ≠ "")
  | .arr _ => true
  | .obj _ => true

/-- Named-property read on an object (first matching key). -/
def jvLookup : List (String × JValue) → String → Option JValue
  | [], _ => none
  | (k', v) :: rest, k => if k' = k then some v else jvLookup rest k

/-- JS property assignment `o[k] = v`: overwrite in place, else append. -/
def objSet : List (String × JValue) → String → JValue → List (String × JValue)
  | [], k, v => [(k, v)]
  | (k', v') :: rest, k, v =>
    if k' = k then (k, v) :: rest else (k', v') :: objSet rest k v

/-- JS `delete o[k]`. -/
def objDelete (fs : List (String × JValue)) (k : String) : List (String × JValue) :=
  fs.filter (fun p => decide (p.1 ≠ k))

/-- Own enumerable entries, as both `Object.entries` and object spread see
them: an object's fields, an array's or string's indexed elements, nothing
for primitives. -/
def jsSpreadFields : JValue → List (String × JValue)
  | .obj fs => fs
  | .arr es => es.enum.map (fun p => (toString p.1, p.2))
  | .str s => s.data.enum.map (fun p => (toString p.1, JValue.str (toString p.2)))
  | _ => []

/-- The test `s.type === "null" || s.type === null` on a looked-up type value. -/
def typeIsNullLike : JValue → Bool
  | .str s => decide (s = "null")
  | .null => true
  | _ => false

/-- The predicate of `find(s => s.type !== "null" && s.type !== null)`;
`none` models the TypeError of reading `.type` on a null element. -/
def anyOfElemOk : JValue → Option Bool
  | .null => none
  | .obj fs =>
    match jvLookup fs "type" with
    | some t => some (!typeIsNullLike t)
    | none => some true
  | _ => some true

/-- JS `array.find(s => s.type !== "null" && s.type !== null)`:
`none` = the callback threw, `some none` = no match. -/
def findNonNullSchema : List JValue → Option (Option JValue)
  | [] => some none
  | s :: rest =>
    match anyOfElemOk s with
    | none => none
    | some true => some (some s)
    | some false => findNonNullSchema rest

/-- The anyOf branch followed by the oneOf branch of
cleanJSONSchemaForAntigravity: `none` = a find callback threw,
`some (some nn)` = a non-null schema was extracted, `some none` = neither
branch fired. -/
def schemaBranchPick (fs : List (String × JValue)) : Option (Option JValue) :=
  let oneOfPick : Option (Option JValue) :=
    match jvLookup fs "oneOf" with
    | some (.arr l) => findNonNullSchema l
    | _ => some none
  match jvLookup fs "anyOf" with
  | some (.arr l) =>
    match findNonNullSchema l with
    | none => none
    | some (some nn) => some (some nn)
    | some none => oneOfPick
  | _ => oneOfPick

/-- The pick `value.find(t => t !== "null") || "string"` of the type-array handling. -/
def typeArrayPick : List JValue → JValue
  | [] => .str "string"
  | t :: rest =>
    match t with
    | .str s =>
      if s = "null" then typeArrayPick rest
      else if s = "" then .str "string" else .str s
    | _ => if jvTruthy t then t else .str "string"

/-- The merge `baseSchema = \x7b ...nonNullSchema \x7d` followed by copying the parent's
non-unsupported entries. -/
def buildBase (nn : JValue) (fs : List (String × JValue)) :
    List (String × JValue) :=
  fs.foldl (fun acc p =>
    if UNSUPPORTED_SCHEMA_CONSTRAINTS.contains p.1 then acc
    else objSet acc p.1 p.2) (jsSpreadFields nn)

/-- Is this JSON null?  (Array `join` renders null elements as `""`.) -/
def jvIsNull : JValue → Bool
  | .null => true
  | _ => false

/-- JS `String(v)` coercion used for the property key in `hasOwnProperty`. -/
def jvToString (v : JValue) : String :=
  match v with
  | .null => "null"
  | .bool b => if b then "true" else "false"
  | .num n => toString n
  | .str s => s
  | .arr es => String.intercalate ","
      (es.attach.map (fun e => if jvIsNull e.1 then "" else jvToString e.1))
  | .obj _ => "[object Object]"
termination_by sizeOf v
decreasing_by
  have h := List.sizeOf_lt_of_mem e.2
  simp only [JValue.arr.sizeOf_spec]
  omega

/-- JS `Object.prototype.hasOwnProperty.call(v, k)`. -/
def jsHasOwn (v : JValue) (k : String) : Bool :=
  match v with
  | .obj fs => (jvLookup fs k).isSome
  | .arr es => decide (k = "length")
      || (List.range es.length).any (fun i => toString i = k)
  | .str s => decide (k = "length")
      || (List.range s.length).any (fun i => toString i = k)
  | _ => false

/-- The count `Object.keys(v).length`. -/
def jsKeyCount : JValue → Nat
  | .obj fs => fs.length
  | .arr es => es.length
  | .str s => s.length
  | _ => 0

/-- The required-field cleanup: keep only required names that are own
properties of `cleaned.properties`, deleting `required` when none remain. -/
def requiredFixup (cleaned : List (String × JValue)) : List (String × JValue) :=
  match jvLookup cleaned "required" with
  | some (.arr reqs) =>
    match jvLookup cleaned "properties" with
    | some props =>
      if jvTruthy props then
        let validRequired := reqs.filter (fun f => jsHasOwn props (jvToString f))
        if validRequired.length = 0 then objDelete cleaned "required"
        else objSet cleaned "required" (.arr validRequired)
      else cleaned
    | none => cleaned
  | _ => cleaned

/-- The placeholder `properties` object injected into empty object schemas. -/
def placeholderProperties : JValue :=
  .obj [("reason", .obj [("type", .str "string"),
    ("description", .str "Brief explanation of why you are calling this tool")])]

/-- The empty-object-schema placeholder step. -/
def placeholderFixup (cleaned : List (String × JValue)) :
    List (String × JValue) :=
  match jvLookup cleaned "type" with
  | some (.str "object") =>
    let needsPlaceholder :=
      match jvLookup cleaned "properties" with
      | none => true
      | some p => !jvTruthy p || decide (jsKeyCount p = 0)
    if needsPlaceholder then
      objSet (objSet cleaned "properties" placeholderProperties) "required"
        (.arr [.str "reason"])
    else cleaned
  | _ => cleaned

mutual

/-- Structural size of a JSON value. -/
def jsizeV : JValue → Nat
  | .null => 1
  | .bool _ => 1
  | .num _ => 1
  | .str _ => 1
  | .arr es => 1 + jsizeL es
  | .obj fs => 1 + jsizeF fs

/-- Structural size of a list of JSON values. -/
def jsizeL : List JValue → Nat
  | [] => 0
  | e :: rest => 1 + jsizeV e + jsizeL rest

/-- Structural size of an object field list. -/
def jsizeF : List (String × JValue) → Nat
  | [] => 0
  | p :: rest => 1 + jsizeV p.2 + jsizeF rest

end

mutual

/-- Total weight of anyOf/oneOf entries anywhere inside a value. -/
def aoV : JValue → Nat
  | .arr es => aoL es
  | .obj fs => aoF fs
  | _ => 0

/-- The anyOf/oneOf weight of a list of values. -/
def aoL : List JValue → Nat
  | [] => 0
  | e :: rest => aoV e + aoL rest

/-- The anyOf/oneOf weight of an object field list. -/
def aoF : List (String × JValue) → Nat
  | [] => 0
  | p :: rest =>
    (if p.1 = "anyOf" ∨ p.1 = "oneOf" then 1 + jsizeV p.2 else 0) + aoV p.2
      + aoF rest

end

/-- Decimal digit characters produced by `Nat.digitChar` below 10. -/
theorem digitChar_isDigit (k : Nat) (hk : k < 10) :
    (Nat.digitChar k).isDigit = true := by
  interval_cases k <;> decide

/-- Every character `Nat.toDigitsCore` emits over base 10 is a digit. -/
theorem toDigitsCore_digits :
    ∀ (fuel n : Nat) (ds : List Char), (∀ c ∈ ds, c.isDigit = true) →
      ∀ c ∈ Nat.toDigitsCore 10 fuel n ds, c.isDigit = true := by
  intro fuel
  induction fuel with
  | zero =>
    intro n ds h c hc
    exact h c hc
  | succ fuel ih =>
    intro n ds h c hc
    have hd : (Nat.digitChar (n % 10)).isDigit = true :=
      digitChar_isDigit _ (Nat.mod_lt _ (by norm_num))
    simp only [Nat.toDigitsCore] at hc
    split at hc
    · rcases List.mem_cons.mp hc with h1 | h1
      · subst h1; exact hd
      · exact h c h1
    · refine ih _ _ ?_ c hc
      intro c' hc'
      rcases List.mem_cons.mp hc' with h1 | h1
      · subst h1; exact hd
      · exact h c' h1

/-- The decimal rendering of a natural number consists of digits only. -/
theorem natToString_isDigit (n : Nat) :
    ∀ c ∈ (toString n).data, c.isDigit = true := by
  show ∀ c ∈ (Nat.repr n).data, c.isDigit = true
  unfold Nat.repr Nat.toDigits
  intro c hc
  refine toDigitsCore_digits (n + 1) n [] (by simp) c ?_
  simpa [List.asString] using hc

/-- A decimal index string never equals a string holding a non-digit. -/
theorem natToString_ne (n : Nat) (s : String) (c : Char) (hc : c ∈ s.data)
    (hcd : c.isDigit = false) : toString n ≠ s := by
  intro h
  have := natToString_isDigit n c (by rw [h]; exact hc)
  rw [this] at hcd
  exact Bool.noConfusion hcd

/-- Array and string index keys are not schema keywords. -/
theorem natToString_not_keyword (i : Nat) :
    toString i ≠ "anyOf" ∧ toString i ≠ "oneOf" ∧ toString i ≠ "type" :=
  ⟨natToString_ne i _ 'y' (by decide) (by decide),
   natToString_ne i _ 'n' (by decide) (by decide),
   natToString_ne i _ 't' (by decide) (by decide)⟩

/-- A successful named-property read returns a field of the object. -/
theorem jvLookup_mem {fs : List (String × JValue)} {k : String} {v : JValue}
    (h : jvLookup fs k = some v) : (k, v) ∈ fs := by
  induction fs with
  | nil => simp [jvLookup] at h
  | cons p rest ih =>
    obtain ⟨k1, v1⟩ := p
    simp only [jvLookup] at h
    split at h
    next heq =>
      injection h with h1
      subst heq
      subst h1
      exact List.mem_cons_self _ _
    next => exact List.mem_cons_of_mem _ (ih h)

/-- A schema extracted by the `find` comes from the searched array. -/
theorem findNonNullSchema_mem {l : List JValue} {nn : JValue}
    (h : findNonNullSchema l = some (some nn)) : nn ∈ l := by
  induction l with
  | nil => simp [findNonNullSchema] at h
  | cons s rest ih =>
    simp only [findNonNullSchema] at h
    split at h
    next => exact Option.noConfusion h
    next =>
      injection h with h1
      injection h1 with h2
      subst h2
      exact List.mem_cons_self _ _
    next => exact List.mem_cons_of_mem _ (ih h)

/-- A non-null schema picked by the anyOf/oneOf branches comes from an
anyOf- or oneOf-keyed array field. -/
theorem schemaBranchPick_spec {fs : List (String × JValue)} {nn : JValue}
    (h : schemaBranchPick fs = some (some nn)) :
    ∃ k l, (k = "anyOf" ∨ k = "oneOf") ∧ jvLookup fs k = some (.arr l) ∧
      nn ∈ l := by
  unfold schemaBranchPick at h
  dsimp only at h
  split at h
  next l heq =>
    split at h
    next => exact Option.noConfusion h
    next nn1 hfind =>
      injection h with h1
      injection h1 with h2
      subst h2
      exact ⟨"anyOf", l, Or.inl rfl, heq, findNonNullSchema_mem hfind⟩
    next =>
      split at h
      next l1 heq1 =>
        exact ⟨"oneOf", l1, Or.inr rfl, heq1, findNonNullSchema_mem h⟩
      next =>
        injection h with h1
        exact Option.noConfusion h1
  next =>
    split at h
    next l1 heq1 =>
      exact ⟨"oneOf", l1, Or.inr rfl, heq1, findNonNullSchema_mem h⟩
    next =>
      injection h with h1
      exact Option.noConfusion h1

/-- Every JSON value has positive size. -/
theorem jsizeV_pos (v : JValue) : 1 ≤ jsizeV v := by
  cases v <;> simp [jsizeV]

/-- A field value is smaller than its field list. -/
theorem jsizeF_mem {fs : List (String × JValue)} {p : String × JValue}
    (h : p ∈ fs) : 1 + jsizeV p.2 ≤ jsizeF fs := by
  induction fs with
  | nil => simp at h
  | cons q rest ih =>
    rcases List.mem_cons.mp h with h1 | h1
    · subst h1; simp only [jsizeF]; omega
    · have := ih h1; simp only [jsizeF]; omega

/-- An element is smaller than its list. -/
theorem jsizeL_mem {es : List JValue} {e : JValue} (h : e ∈ es) :
    1 + jsizeV e ≤ jsizeL es := by
  induction es with
  | nil => simp at h
  | cons q rest ih =>
    rcases List.mem_cons.mp h with h1 | h1
    · subst h1; simp only [jsizeL]; omega
    · have := ih h1; simp only [jsizeL]; omega

/-- An element weighs no more than its list. -/
theorem aoV_mem_le {l : List JValue} {e : JValue} (h : e ∈ l) :
    aoV e ≤ aoL l := by
  induction l with
  | nil => simp at h
  | cons q rest ih =>
    rcases List.mem_cons.mp h with h1 | h1
    · subst h1; simp only [aoL]; omega
    · have := ih h1; simp only [aoL]; omega

/-- Assignment adds at most the weight of the assigned entry. -/
theorem aoF_objSet_le (fs : List (String × JValue)) (k : String) (v : JValue) :
    aoF (objSet fs k v) ≤ aoF fs +
      ((if k = "anyOf" ∨ k = "oneOf" then 1 + jsizeV v else 0) + aoV v) := by
  induction fs with
  | nil => simp only [objSet, aoF]; omega
  | cons p rest ih =>
    obtain ⟨k1, v1⟩ := p
    simp only [objSet]
    split
    next heq =>
      subst heq
      simp only [aoF]
      omega
    next =>
      simp only [aoF]
      omega

/-- Filtering never increases the weight. -/
theorem aoF_filter_le (fs : List (String × JValue))
    (pred : String × JValue → Bool) :
    aoF (fs.filter pred) ≤ aoF fs := by
  induction fs with
  | nil => simp
  | cons p rest ih =>
    simp only [List.filter_cons]
    split
    · simp only [aoF]
      omega
    · simp only [aoF]
      omega

/-- Dropping a filtered-out entry accounts for its full weight. -/
theorem aoF_filter_drop {fs : List (String × JValue)} {p0 : String × JValue}
    (hmem : p0 ∈ fs)
    (hdrop : UNSUPPORTED_SCHEMA_CONSTRAINTS.contains p0.1 = true) :
    aoF (fs.filter (fun p => !UNSUPPORTED_SCHEMA_CONSTRAINTS.contains p.1))
      + ((if p0.1 = "anyOf" ∨ p0.1 = "oneOf" then 1 + jsizeV p0.2 else 0)
        + aoV p0.2)
      ≤ aoF fs := by
  induction fs with
  | nil => simp at hmem
  | cons q rest ih =>
    rcases List.mem_cons.mp hmem with h1 | h1
    · subst h1
      simp only [List.filter_cons, hdrop, Bool.not_true, Bool.false_eq_true,
        if_false, aoF]
      have := aoF_filter_le rest
        (fun p => !UNSUPPORTED_SCHEMA_CONSTRAINTS.contains p.1)
      omega
    · have hrec := ih h1
      simp only [List.filter_cons]
      split
      · simp only [aoF]
        omega
      · simp only [aoF]
        omega

/-- The copy loop of the anyOf/oneOf branch adds at most the weight of the
parent entries that survive the unsupported-key filter. -/
theorem buildBase_fold_le (entries : List (String × JValue)) :
    ∀ init, aoF (entries.foldl (fun acc p =>
        if UNSUPPORTED_SCHEMA_CONSTRAINTS.contains p.1 then acc
        else objSet acc p.1 p.2) init) ≤
      aoF init + aoF (entries.filter
        (fun p => !UNSUPPORTED_SCHEMA_CONSTRAINTS.contains p.1)) := by
  induction entries with
  | nil => intro init; simp
  | cons p rest ih =>
    intro init
    simp only [List.foldl_cons, List.filter_cons]
    by_cases hc : UNSUPPORTED_SCHEMA_CONSTRAINTS.contains p.1
    · rw [if_pos hc]
      simp only [hc, Bool.not_true, Bool.false_eq_true, if_false]
      exact ih init
    · rw [if_neg hc]
      have hc2 : UNSUPPORTED_SCHEMA_CONSTRAINTS.contains p.1 = false := by
        rw [← Bool.not_eq_true]
        exact hc
      simp only [hc2, Bool.not_false, if_true]
      have ha := ih (objSet init p.1 p.2)
      have hb := aoF_objSet_le init p.1 p.2
      simp only [aoF]
      omega

/-- Numeric index keys of an array spread contribute no anyOf weight. -/
theorem aoF_enumFrom_arr (es : List JValue) :
    ∀ i, aoF ((es.enumFrom i).map (fun p => (toString p.1, p.2))) ≤ aoL es := by
  induction es with
  | nil => intro i; simp [aoF, aoL]
  | cons e rest ih =>
    intro i
    simp only [List.enumFrom, List.map_cons, aoF, aoL]
    have hk := natToString_not_keyword i
    have h0 : (if toString i = "anyOf" ∨ toString i = "oneOf" then
        1 + jsizeV e else 0) = 0 := by
      rw [if_neg]
      rintro (h | h)
      · exact hk.1 h
      · exact hk.2.1 h
    have := ih (i + 1)
    omega

/-- Numeric index keys of a string spread contribute no weight at all. -/
theorem aoF_enumFrom_str (cs : List Char) :
    ∀ i, aoF ((cs.enumFrom i).map
      (fun p => (toString p.1, JValue.str (toString p.2)))) = 0 := by
  induction cs with
  | nil => intro i; simp [aoF]
  | cons c rest ih =>
    intro i
    simp only [List.enumFrom, List.map_cons, aoF]
    have hk := natToString_not_keyword i
    have h0 : (if toString i = "anyOf" ∨ toString i = "oneOf" then
        1 + jsizeV (JValue.str (toString c)) else 0) = 0 := by
      rw [if_neg]
      rintro (h | h)
      · exact hk.1 h
      · exact hk.2.1 h
    have := ih (i + 1)
    simp only [aoV] at this ⊢
    omega

/-- A spread weighs no more than the value spread. -/
theorem aoF_spread_le (v : JValue) : aoF (jsSpreadFields v) ≤ aoV v := by
  cases v with
  | obj fs => simp [jsSpreadFields, aoV]
  | arr es =>
    simp only [jsSpreadFields, aoV, List.enum]
    exact aoF_enumFrom_arr es 0
  | str s =>
    simp only [jsSpreadFields, aoV]
    have := aoF_enumFrom_str s.data 0
    simp [List.enum] at this ⊢
    omega
  | null => simp [jsSpreadFields, aoF, aoV]
  | bool b => simp [jsSpreadFields, aoF, aoV]
  | num n => simp [jsSpreadFields, aoF, aoV]

/-- The rebuilt base schema of the anyOf/oneOf branch weighs strictly less
than the parent schema. -/
theorem aoF_buildBase_lt {fs : List (String × JValue)} {k : String}
    {l : List JValue} {nn : JValue} (hk : k = "anyOf" ∨ k = "oneOf")
    (hlook : jvLookup fs k = some (.arr l)) (hnn : nn ∈ l) :
    aoF (buildBase nn fs) < aoF fs := by
  have hmem := jvLookup_mem hlook
  have hcontains : UNSUPPORTED_SCHEMA_CONSTRAINTS.contains k = true := by
    rcases hk with h | h <;> subst h <;> decide
  have h1 := buildBase_fold_le fs (jsSpreadFields nn)
  have h2 := aoF_spread_le nn
  have h3 := aoF_filter_drop hmem hcontains
  have h4 : aoV nn ≤ aoL l := aoV_mem_le hnn
  have h5 : (if k = "anyOf" ∨ k = "oneOf" then 1 + jsizeV (JValue.arr l)
      else 0) = 1 + jsizeV (JValue.arr l) := if_pos hk
  simp only [h5, aoV] at h3
  unfold buildBase
  omega

/-- Lexicographic step: first component bounded, second strictly smaller. -/
theorem lex_of_le_of_lt {a1 a2 b1 b2 : Nat} (ha : a1 ≤ a2) (hb : b1 < b2) :
    Prod.Lex (fun x y : Nat => x < y) (fun x y : Nat => x < y)
      (a1, b1) (a2, b2) := by
  rcases Nat.lt_or_ge a1 a2 with h | h
  · exact Prod.Lex.left _ _ h
  · have h2 : a1 = a2 := Nat.le_antisymm ha h
    subst h2
    exact Prod.Lex.right _ hb

mutual

/-- cleanJSONSchemaForAntigravity: primitives pass through; an object with a
usable anyOf/oneOf restarts on the merged base schema; otherwise entries are
copied skipping unsupported keys, with type arrays collapsed, object values
cleaned recursively, then the required and empty-object fixups applied.
`none` models the TypeError thrown on a null anyOf/oneOf element. -/
def cleanJSONSchemaForAntigravity (schema : JValue) : Option JValue :=
  match schema with
  | .obj fs =>
    match hpick : schemaBranchPick fs with
    | none => none
    | some (some nn) => cleanJSONSchemaForAntigravity (.obj (buildBase nn fs))
    | some none =>
      match cleanSchemaFields fs with
      | none => none
      | some out =>
        some (.obj (placeholderFixup (requiredFixup
          (out.foldl (fun acc p => objSet acc p.1 p.2) []))))
  | .arr es =>
    match cleanSchemaList es with
    | none => none
    | some cs => some (.arr cs)
  | _ => some schema
termination_by (aoV schema, jsizeV schema)
decreasing_by
  all_goals
    (first
      | (obtain ⟨k, l, hk, hlook, hnn⟩ := schemaBranchPick_spec hpick
         apply Prod.Lex.left
         simp only [aoV]
         exact aoF_buildBase_lt hk hlook hnn)
      | (apply lex_of_le_of_lt <;>
          (simp only [aoV, aoL, aoF, jsizeV, jsizeL, jsizeF]; omega)))

/-- The element loop cleaning an array schema. -/
def cleanSchemaList (es : List JValue) : Option (List JValue) :=
  match es with
  | [] => some []
  | v :: rest =>
    match (if jsIsObject v then cleanJSONSchemaForAntigravity v else some v) with
    | none => none
    | some c =>
      match cleanSchemaList rest with
      | none => none
      | some cs => some (c :: cs)
termination_by (aoL es, jsizeL es)
decreasing_by
  all_goals
    (apply lex_of_le_of_lt <;>
      (simp only [aoV, aoL, aoF, jsizeV, jsizeL, jsizeF]; omega))

/-- The entry loop of the main object path: skip unsupported keys, collapse
type arrays, clean object values, copy primitives; returns the entries to
assign in order. -/
def cleanSchemaFields (fs : List (String × JValue)) :
    Option (List (String × JValue)) :=
  match fs with
  | [] => some []
  | (k, v) :: rest =>
    if UNSUPPORTED_SCHEMA_CONSTRAINTS.contains k then cleanSchemaFields rest
    else
      match v with
      | .arr ts =>
        if k = "type" then
          match cleanSchemaFields rest with
          | none => none
          | some out => some ((k, typeArrayPick ts) :: out)
        else
          match cleanJSONSchemaForAntigravity (.arr ts) with
          | none => none
          | some c =>
            match cleanSchemaFields rest with
            | none => none
            | some out => some ((k, c) :: out)
      | .obj gs =>
        match cleanJSONSchemaForAntigravity (.obj gs) with
        | none => none
        | some c =>
          match cleanSchemaFields rest with
          | none => none
          | some out => some ((k, c) :: out)
      | _ =>
        match cleanSchemaFields rest with
        | none => none
        | some out => some ((k, v) :: out)
termination_by (aoF fs, jsizeF fs)
decreasing_by
  all_goals
    (apply lex_of_le_of_lt <;>
      (simp only [aoV, aoL, aoF, jsizeV, jsizeL, jsizeF]; omega))

end

/-- The schema shape the amended claim quantifies over, per entry: an
array-valued `type` field holds only non-object elements (the source copies
the picked element without cleaning it). -/
def entryOk (k : String) (v : JValue) : Bool :=
  if k = "type" then
    match v with
    | .arr ts => ts.all (fun t => !jsIsObject t)
    | _ => true
  else true

mutual

/-- Hereditarily: every array-valued `type` field holds only scalars. -/
def cleanableV : JValue → Bool
  | .arr es => cleanableL es
  | .obj fs => cleanableF fs
  | _ => true

/-- Lift of `cleanableV` over the elements of an array. -/
def cleanableL : List JValue → Bool
  | [] => true
  | e :: rest => cleanableV e && cleanableL rest

/-- Lift of `cleanableV` over the fields of an object, with the entry condition. -/
def cleanableF : List (String × JValue) → Bool
  | [] => true
  | p :: rest => entryOk p.1 p.2 && cleanableV p.2 && cleanableF rest

end

mutual

/-- Does the value contain a key from UNSUPPORTED_SCHEMA_CONSTRAINTS at any
nesting depth? -/
def hasUnsuppV : JValue → Bool
  | .arr es => hasUnsuppL es
  | .obj fs => hasUnsuppF fs
  | _ => false

/-- Lift of `hasUnsuppV` over the elements of an array. -/
def hasUnsuppL : List JValue → Bool
  | [] => false
  | e :: rest => hasUnsuppV e || hasUnsuppL rest

/-- Lift of `hasUnsuppV` over the fields of an object, checking the keys. -/
def hasUnsuppF : List (String × JValue) → Bool
  | [] => false
  | p :: rest => UNSUPPORTED_SCHEMA_CONSTRAINTS.contains p.1 || hasUnsuppV p.2
      || hasUnsuppF rest

end

/-- Field lists inherit per-entry cleanability. -/
theorem cleanableF_mem {fs : List (String × JValue)} {p : String × JValue}
    (hcl : cleanableF fs = true) (hmem : p ∈ fs) :
    entryOk p.1 p.2 = true ∧ cleanableV p.2 = true := by
  induction fs with
  | nil => simp at hmem
  | cons q rest ih =>
    simp only [cleanableF, Bool.and_eq_true] at hcl
    rcases List.mem_cons.mp hmem with h1 | h1
    · subst h1
      exact ⟨hcl.1.1, hcl.1.2⟩
    · exact ih hcl.2 h1

/-- Element lists inherit cleanability. -/
theorem cleanableL_mem {l : List JValue} {e : JValue}
    (hcl : cleanableL l = true) (hmem : e ∈ l) : cleanableV e = true := by
  induction l with
  | nil => simp at hmem
  | cons q rest ih =>
    simp only [cleanableL, Bool.and_eq_true] at hcl
    rcases List.mem_cons.mp hmem with h1 | h1
    · subst h1
      exact hcl.1
    · exact ih hcl.2 h1

/-- Assignment of a cleanable entry preserves field cleanability. -/
theorem cleanableF_objSet {fs : List (String × JValue)} {k : String}
    {v : JValue} (hcl : cleanableF fs = true) (he : entryOk k v = true)
    (hv : cleanableV v = true) : cleanableF (objSet fs k v) = true := by
  induction fs with
  | nil => simp [objSet, cleanableF, he, hv]
  | cons q rest ih =>
    obtain ⟨k1, v1⟩ := q
    simp only [cleanableF, Bool.and_eq_true] at hcl
    simp only [objSet]
    split
    · simp [cleanableF, he, hv, hcl.2]
    · simp only [cleanableF, Bool.and_eq_true]
      exact ⟨hcl.1, ih hcl.2⟩

/-- Array-index entries of an array spread are cleanable. -/
theorem cleanableF_enumFrom_arr {es : List JValue}
    (hcl : cleanableL es = true) :
    ∀ i, cleanableF ((es.enumFrom i).map (fun p => (toString p.1, p.2)))
      = true := by
  induction es with
  | nil => intro i; simp [cleanableF]
  | cons e rest ih =>
    intro i
    simp only [cleanableL, Bool.and_eq_true] at hcl
    simp only [List.enumFrom, List.map_cons, cleanableF, Bool.and_eq_true]
    refine ⟨⟨?_, hcl.1⟩, ih hcl.2 (i + 1)⟩
    show entryOk (toString i) e = true
    unfold entryOk
    rw [if_neg (natToString_not_keyword i).2.2]

/-- Character entries of a string spread are cleanable. -/
theorem cleanableF_enumFrom_str (cs : List Char) :
    ∀ i, cleanableF ((cs.enumFrom i).map
      (fun p => (toString p.1, JValue.str (toString p.2)))) = true := by
  induction cs with
  | nil => intro i; simp [cleanableF]
  | cons c rest ih =>
    intro i
    simp only [List.enumFrom, List.map_cons, cleanableF, Bool.and_eq_true]
    refine ⟨⟨?_, by simp [cleanableV]⟩, ih (i + 1)⟩
    show entryOk (toString i) (JValue.str (toString c)) = true
    unfold entryOk
    rw [if_neg (natToString_not_keyword i).2.2]

/-- Spreading a cleanable value yields cleanable fields. -/
theorem cleanableF_spread {v : JValue} (hcl : cleanableV v = true) :
    cleanableF (jsSpreadFields v) = true := by
  cases v with
  | obj fs => simpa [jsSpreadFields, cleanableV] using hcl
  | arr es =>
    simp only [cleanableV] at hcl
    simp only [jsSpreadFields, List.enum]
    exact cleanableF_enumFrom_arr hcl 0
  | str s =>
    simp only [jsSpreadFields, List.enum]
    exact cleanableF_enumFrom_str s.data 0
  | null => simp [jsSpreadFields, cleanableF]
  | bool b => simp [jsSpreadFields, cleanableF]
  | num n => simp [jsSpreadFields, cleanableF]

/-- The copy fold of the anyOf/oneOf branch preserves cleanability. -/
theorem cleanableF_fold (entries : List (String × JValue)) :
    ∀ init, cleanableF init = true → cleanableF entries = true →
      cleanableF (entries.foldl (fun acc p =>
        if UNSUPPORTED_SCHEMA_CONSTRAINTS.contains p.1 then acc
        else objSet acc p.1 p.2) init) = true := by
  induction entries with
  | nil => intro init h _; simpa using h
  | cons p rest ih =>
    intro init hinit hcl
    simp only [cleanableF, Bool.and_eq_true] at hcl
    simp only [List.foldl_cons]
    by_cases hc : UNSUPPORTED_SCHEMA_CONSTRAINTS.contains p.1
    · rw [if_pos hc]
      exact ih init hinit hcl.2
    · rw [if_neg hc]
      exact ih _ (cleanableF_objSet hinit hcl.1.1 hcl.1.2) hcl.2

/-- The base schema assembled by the anyOf/oneOf branch is cleanable. -/
theorem cleanableF_buildBase {fs : List (String × JValue)} {nn : JValue}
    (hcl : cleanableF fs = true) (hnn : cleanableV nn = true) :
    cleanableF (buildBase nn fs) = true :=
  cleanableF_fold fs _ (cleanableF_spread hnn) hcl

/-- A field list whose entries all avoid unsupported keys has none. -/
theorem hasUnsuppF_of_forall {fields : List (String × JValue)}
    (h : ∀ p ∈ fields, UNSUPPORTED_SCHEMA_CONSTRAINTS.contains p.1 = false ∧
      hasUnsuppV p.2 = false) : hasUnsuppF fields = false := by
  induction fields with
  | nil => simp [hasUnsuppF]
  | cons p rest ih =>
    have hp := h p (List.mem_cons_self _ _)
    simp only [hasUnsuppF, Bool.or_eq_false_iff]
    exact ⟨⟨hp.1, hp.2⟩, ih (fun q hq => h q (List.mem_cons_of_mem _ hq))⟩

/-- Elements of an unsupported-free array are unsupported-free. -/
theorem hasUnsuppL_mem {l : List JValue} {e : JValue}
    (h : hasUnsuppL l = false) (hmem : e ∈ l) : hasUnsuppV e = false := by
  induction l with
  | nil => simp at hmem
  | cons q rest ih =>
    simp only [hasUnsuppL, Bool.or_eq_false_iff] at h
    rcases List.mem_cons.mp hmem with h1 | h1
    · subst h1; exact h.1
    · exact ih h.2 h1

/-- An array of unsupported-free elements is unsupported-free. -/
theorem hasUnsuppL_of_forall {l : List JValue}
    (h : ∀ e ∈ l, hasUnsuppV e = false) : hasUnsuppL l = false := by
  induction l with
  | nil => simp [hasUnsuppL]
  | cons q rest ih =>
    simp only [hasUnsuppL, Bool.or_eq_false_iff]
    exact ⟨h q (List.mem_cons_self _ _),
      ih (fun e he => h e (List.mem_cons_of_mem _ he))⟩

/-- The good-output predicate survives a single assignment. -/
theorem outOk_objSet {fs : List (String × JValue)} {k : String} {v : JValue}
    (h : ∀ p ∈ fs, UNSUPPORTED_SCHEMA_CONSTRAINTS.contains p.1 = false ∧
      hasUnsuppV p.2 = false)
    (hk : UNSUPPORTED_SCHEMA_CONSTRAINTS.contains k = false)
    (hv : hasUnsuppV v = false) :
    ∀ p ∈ objSet fs k v, UNSUPPORTED_SCHEMA_CONSTRAINTS.contains p.1 = false ∧
      hasUnsuppV p.2 = false := by
  induction fs with
  | nil =>
    intro p hp
    simp only [objSet, List.mem_singleton] at hp
    subst hp
    exact ⟨hk, hv⟩
  | cons q rest ih =>
    obtain ⟨k1, v1⟩ := q
    intro p hp
    simp only [objSet] at hp
    split at hp
    · rcases List.mem_cons.mp hp with h1 | h1
      · subst h1; exact ⟨hk, hv⟩
      · exact h _ (List.mem_cons_of_mem _ h1)
    · rcases List.mem_cons.mp hp with h1 | h1
      · subst h1; exact h _ (List.mem_cons_self _ _)
      · exact ih (fun q hq => h q (List.mem_cons_of_mem _ hq)) _ h1

/-- The good-output predicate survives the assignment fold. -/
theorem outOk_fold (out : List (String × JValue)) :
    ∀ init,
      (∀ p ∈ init, UNSUPPORTED_SCHEMA_CONSTRAINTS.contains p.1 = false ∧
        hasUnsuppV p.2 = false) →
      (∀ p ∈ out, UNSUPPORTED_SCHEMA_CONSTRAINTS.contains p.1 = false ∧
        hasUnsuppV p.2 = false) →
      ∀ p ∈ out.foldl (fun acc q => objSet acc q.1 q.2) init,
        UNSUPPORTED_SCHEMA_CONSTRAINTS.contains p.1 = false ∧
          hasUnsuppV p.2 = false := by
  induction out with
  | nil => intro init hinit _; simpa using hinit
  | cons q rest ih =>
    intro init hinit hout
    simp only [List.foldl_cons]
    refine ih _ ?_ (fun p hp => hout p (List.mem_cons_of_mem _ hp))
    exact outOk_objSet hinit (hout q (List.mem_cons_self _ _)).1
      (hout q (List.mem_cons_self _ _)).2

/-- The required-field cleanup preserves the good-output predicate. -/
theorem outOk_requiredFixup {fields : List (String × JValue)}
    (h : ∀ p ∈ fields, UNSUPPORTED_SCHEMA_CONSTRAINTS.contains p.1 = false ∧
      hasUnsuppV p.2 = false) :
    ∀ p ∈ requiredFixup fields,
      UNSUPPORTED_SCHEMA_CONSTRAINTS.contains p.1 = false ∧
        hasUnsuppV p.2 = false := by
  unfold requiredFixup
  split
  next reqs hreq =>
    split
    next props hprops =>
      split
      next =>
        dsimp only
        split
        next =>
          intro p hp
          exact h p (List.mem_filter.mp hp).1
        next =>
          have hreqs : hasUnsuppV (.arr reqs) = false :=
            (h _ (jvLookup_mem hreq)).2
          simp only [hasUnsuppV] at hreqs
          refine outOk_objSet h (by decide) ?_
          show hasUnsuppV (.arr (reqs.filter _)) = false
          simp only [hasUnsuppV]
          refine hasUnsuppL_of_forall ?_
          intro e he
          exact hasUnsuppL_mem hreqs (List.mem_filter.mp he).1
      next => exact h
    next => exact h
  next => exact h

/-- The empty-object placeholder step preserves the good-output predicate. -/
theorem outOk_placeholderFixup {fields : List (String × JValue)}
    (h : ∀ p ∈ fields, UNSUPPORTED_SCHEMA_CONSTRAINTS.contains p.1 = false ∧
      hasUnsuppV p.2 = false) :
    ∀ p ∈ placeholderFixup fields,
      UNSUPPORTED_SCHEMA_CONSTRAINTS.contains p.1 = false ∧
        hasUnsuppV p.2 = false := by
  unfold placeholderFixup
  split
  next =>
    dsimp only
    split
    next =>
      refine outOk_objSet (outOk_objSet h (by decide) (by decide)) (by decide)
        (by decide)
    next => exact h
  next => exact h

/-- The collapsed type value contains no unsupported key when the type
array held only scalars. -/
theorem typeArrayPick_out {ts : List JValue}
    (h : ts.all (fun t => !jsIsObject t) = true) :
    hasUnsuppV (typeArrayPick ts) = false := by
  induction ts with
  | nil => decide
  | cons t rest ih =>
    simp only [List.all_cons, Bool.and_eq_true] at h
    cases t with
    | str s =>
      simp only [typeArrayPick]
      split
      · exact ih h.2
      · split <;> simp [hasUnsuppV]
    | null => simp [typeArrayPick, jvTruthy, hasUnsuppV]
    | bool b =>
      simp only [typeArrayPick]
      split <;> simp [hasUnsuppV]
    | num n =>
      simp only [typeArrayPick]
      split <;> simp [hasUnsuppV]
    | arr es => simp [jsIsObject] at h
    | obj fs => simp [jsIsObject] at h

/-- Strong double induction: cleaning any cleanable input leaves no
unsupported key at any depth, across the three mutual functions. -/
theorem cleanSchema_noUnsupp : ∀ na n : Nat,
    (∀ s res, aoV s ≤ na → jsizeV s ≤ n → cleanableV s = true →
      cleanJSONSchemaForAntigravity s = some res → hasUnsuppV res = false) ∧
    (∀ es out, aoL es ≤ na → jsizeL es ≤ n → cleanableL es = true →
      cleanSchemaList es = some out → hasUnsuppL out = false) ∧
    (∀ fs out, aoF fs ≤ na → jsizeF fs ≤ n → cleanableF fs = true →
      cleanSchemaFields fs = some out →
      ∀ p ∈ out, UNSUPPORTED_SCHEMA_CONSTRAINTS.contains p.1 = false ∧
        hasUnsuppV p.2 = false) := by
  intro na
  induction na using Nat.strong_induction_on with
  | _ na ihA =>
    intro n
    induction n using Nat.strong_induction_on with
    | _ n ihN =>
      refine ⟨?_, ?_, ?_⟩
      · intro s res hao hsz hcl hclean
        cases s with
        | null =>
          simp only [cleanJSONSchemaForAntigravity] at hclean
          injection hclean with h1
          subst h1
          rfl
        | bool b =>
          simp only [cleanJSONSchemaForAntigravity] at hclean
          injection hclean with h1
          subst h1
          rfl
        | num m =>
          simp only [cleanJSONSchemaForAntigravity] at hclean
          injection hclean with h1
          subst h1
          rfl
        | str s1 =>
          simp only [cleanJSONSchemaForAntigravity] at hclean
          injection hclean with h1
          subst h1
          rfl
        | arr es =>
          simp only [cleanJSONSchemaForAntigravity] at hclean
          simp only [jsizeV] at hsz
          simp only [aoV] at hao
          simp only [cleanableV] at hcl
          split at hclean
          next => exact Option.noConfusion hclean
          next cs heq =>
            injection hclean with h1
            subst h1
            simp only [hasUnsuppV]
            exact (ihN (n - 1) (by omega)).2.1 es cs hao (by omega) hcl heq
        | obj fs =>
          rw [cleanJSONSchemaForAntigravity] at hclean
          simp only [jsizeV] at hsz
          simp only [aoV] at hao
          simp only [cleanableV] at hcl
          split at hclean
          next => exact Option.noConfusion hclean
          next nn hp =>
            obtain ⟨k, l, hk, hlook, hnn⟩ := schemaBranchPick_spec hp
            have hnncl : cleanableV nn = true := by
              have hmem := jvLookup_mem hlook
              have h2 := (cleanableF_mem hcl hmem).2
              simp only [cleanableV] at h2
              exact cleanableL_mem h2 hnn
            have hbase : cleanableV (.obj (buildBase nn fs)) = true := by
              simp only [cleanableV]
              exact cleanableF_buildBase hcl hnncl
            have hlt : aoV (.obj (buildBase nn fs)) < na := by
              have h1 := aoF_buildBase_lt hk hlook hnn
              simp only [aoV]
              omega
            exact ((ihA _ hlt) (jsizeV (.obj (buildBase nn fs)))).1 _ res
              (le_refl _) (le_refl _) hbase hclean
          next hp =>
            split at hclean
            next => exact Option.noConfusion hclean
            next out heq =>
              injection hclean with h1
              subst h1
              have hout := (ihN (n - 1) (by omega)).2.2 fs out hao (by omega)
                hcl heq
              have hfold := outOk_fold out [] (by simp) hout
              have hreq := outOk_requiredFixup hfold
              have hph := outOk_placeholderFixup hreq
              simp only [hasUnsuppV]
              exact hasUnsuppF_of_forall hph
      · intro es out hao hsz hcl hclean
        cases es with
        | nil =>
          simp only [cleanSchemaList] at hclean
          injection hclean with h1
          subst h1
          decide
        | cons v rest =>
          simp only [cleanSchemaList] at hclean
          simp only [jsizeL] at hsz
          simp only [aoL] at hao
          simp only [cleanableL, Bool.and_eq_true] at hcl
          split at hclean
          next => exact Option.noConfusion hclean
          next c hv =>
            split at hclean
            next => exact Option.noConfusion hclean
            next cs hrest =>
              injection hclean with h1
              subst h1
              have hAv : 1 ≤ jsizeV v := jsizeV_pos v
              have hcrest := (ihN (n - 1) (by omega)).2.1 rest cs (by omega)
                (by omega) hcl.2 hrest
              have hcv : hasUnsuppV c = false := by
                by_cases hio : jsIsObject v = true
                · rw [if_pos hio] at hv
                  exact (ihN (n - 1) (by omega)).1 v c (by omega) (by omega)
                    hcl.1 hv
                · rw [if_neg hio] at hv
                  injection hv with h2
                  subst h2
                  cases v <;> first | rfl | simp [jsIsObject] at hio
              simp only [hasUnsuppL, Bool.or_eq_false_iff]
              exact ⟨hcv, hcrest⟩
      · intro fs out hao hsz hcl hclean
        cases fs with
        | nil =>
          simp only [cleanSchemaFields] at hclean
          injection hclean with h1
          subst h1
          intro p hp
          simp at hp
        | cons q rest =>
          obtain ⟨k, v⟩ := q
          simp only [jsizeF] at hsz
          simp only [aoF] at hao
          simp only [cleanableF, Bool.and_eq_true] at hcl
          have hAv : 1 ≤ jsizeV v := jsizeV_pos v
          have hrestOk : ∀ out1, cleanSchemaFields rest = some out1 →
              ∀ p ∈ out1,
                UNSUPPORTED_SCHEMA_CONSTRAINTS.contains p.1 = false ∧
                  hasUnsuppV p.2 = false := by
            intro out1 h1
            exact (ihN (n - 1) (by omega)).2.2 rest out1 (by omega) (by omega)
              hcl.2 h1
          by_cases hck : UNSUPPORTED_SCHEMA_CONSTRAINTS.contains k = true
          · have hskip : cleanSchemaFields ((k, v) :: rest) =
                cleanSchemaFields rest := by
              rw [cleanSchemaFields.eq_def]
              simp only [hck, if_true]
            rw [hskip] at hclean
            exact (ihN (n - 1) (by omega)).2.2 rest out (by omega) (by omega)
              hcl.2 hclean
          · have hckf : UNSUPPORTED_SCHEMA_CONSTRAINTS.contains k = false := by
              rw [← Bool.not_eq_true]
              exact hck
            cases v with
            | arr ts =>
              simp only [cleanSchemaFields, hckf, Bool.false_eq_true, if_false]
                at hclean
              by_cases hkt : k = "type"
              · rw [if_pos hkt] at hclean
                split at hclean
                next => exact Option.noConfusion hclean
                next out1 hrest =>
                  injection hclean with h1
                  subst h1
                  intro p hp
                  rcases List.mem_cons.mp hp with h2 | h2
                  · subst h2
                    refine ⟨hckf, ?_⟩
                    have hek := hcl.1.1
                    unfold entryOk at hek
                    rw [if_pos hkt] at hek
                    exact typeArrayPick_out hek
                  · exact hrestOk out1 hrest p h2
              · rw [if_neg hkt] at hclean
                split at hclean
                next => exact Option.noConfusion hclean
                next c hc =>
                  split at hclean
                  next => exact Option.noConfusion hclean
                  next out1 hrest =>
                    injection hclean with h1
                    subst h1
                    intro p hp
                    rcases List.mem_cons.mp hp with h2 | h2
                    · subst h2
                      refine ⟨hckf, ?_⟩
                      exact (ihN (n - 1) (by omega)).1 (.arr ts) c (by omega)
                        (by omega) hcl.1.2 hc
                    · exact hrestOk out1 hrest p h2
            | obj gs =>
              simp only [cleanSchemaFields, hckf, Bool.false_eq_true, if_false]
                at hclean
              split at hclean
              next => exact Option.noConfusion hclean
              next c hc =>
                split at hclean
                next => exact Option.noConfusion hclean
                next out1 hrest =>
                  injection hclean with h1
                  subst h1
                  intro p hp
                  rcases List.mem_cons.mp hp with h2 | h2
                  · subst h2
                    refine ⟨hckf, ?_⟩
                    exact (ihN (n - 1) (by omega)).1 (.obj gs) c (by omega)
                      (by omega) hcl.1.2 hc
                  · exact hrestOk out1 hrest p h2
            | null =>
              simp only [cleanSchemaFields, hckf, Bool.false_eq_true, if_false]
                at hclean
              split at hclean
              next => exact Option.noConfusion hclean
              next out1 hrest =>
                injection hclean with h1
                subst h1
                intro p hp
                rcases List.mem_cons.mp hp with h2 | h2
                · subst h2
                  exact ⟨hckf, by rfl⟩
                · exact hrestOk out1 hrest p h2
            | bool b =>
              simp only [cleanSchemaFields, hckf, Bool.false_eq_true, if_false]
                at hclean
              split at hclean
              next => exact Option.noConfusion hclean
              next out1 hrest =>
                injection hclean with h1
                subst h1
                intro p hp
                rcases List.mem_cons.mp hp with h2 | h2
                · subst h2
                  exact ⟨hckf, by rfl⟩
                · exact hrestOk out1 hrest p h2
            | num m =>
              simp only [cleanSchemaFields, hckf, Bool.false_eq_true, if_false]
                at hclean
              split at hclean
              next => exact Option.noConfusion hclean
              next out1 hrest =>
                injection hclean with h1
                subst h1
                intro p hp
                rcases List.mem_cons.mp hp with h2 | h2
                · subst h2
                  exact ⟨hckf, by rfl⟩
                · exact hrestOk out1 hrest p h2
            | str s1 =>
              simp only [cleanSchemaFields, hckf, Bool.false_eq_true, if_false]
                at hclean
              split at hclean
              next => exact Option.noConfusion hclean
              next out1 hrest =>
                injection hclean with h1
                subst h1
                intro p hp
                rcases List.mem_cons.mp hp with h2 | h2
                · subst h2
                  exact ⟨hckf, by rfl⟩
                · exact hrestOk out1 hrest p h2

/-- C4 (amended): for every JSON schema whose array-valued `type` fields
hold only scalar elements at every nesting depth, a successful
cleanJSONSchemaForAntigravity run returns a value containing no key from
UNSUPPORTED_SCHEMA_CONSTRAINTS at any nesting depth. -/
theorem cleanJSONSchemaForAntigravity_no_unsupported (s res : JValue)
    (hcl : cleanableV s = true)
    (hres : cleanJSONSchemaForAntigravity s = some res) :
    hasUnsuppV res = false :=
  (cleanSchema_noUnsupp (aoV s) (jsizeV s)).1 s res (le_refl _) (le_refl _)
    hcl hres

theorem cleanFields_ctEx :
    cleanSchemaFields
        [("type", JValue.arr [JValue.obj [("pattern", JValue.str "x")]])] =
      some [("type", JValue.obj [("pattern", JValue.str "x")])] := by
  rw [cleanSchemaFields.eq_def]
  dsimp only
  rw [cleanSchemaFields.eq_def]
  rfl

/-- C4 counterexample: the schema \x7b"type": [\x7b"pattern": "x"\x7d]\x7d cleans to
\x7b"type": \x7b"pattern": "x"\x7d\x7d, and "pattern" is an unsupported key: the
type-array handling copies the found element without cleaning it. -/
theorem cleanJSONSchemaForAntigravity_counterexample :
    cleanJSONSchemaForAntigravity
        (.obj [("type", JValue.arr [JValue.obj [("pattern", JValue.str "x")]])]) =
      some (.obj [("type", JValue.obj [("pattern", JValue.str "x")])]) ∧
    hasUnsuppV (.obj [("type", JValue.obj [("pattern", JValue.str "x")])])
      = true := by
  constructor
  · rw [cleanJSONSchemaForAntigravity]
    have h1 : schemaBranchPick
        [("type", JValue.arr [JValue.obj [("pattern", JValue.str "x")]])] =
        some none := rfl
    split
    next heq =>
      rw [h1] at heq
      exact Option.noConfusion heq
    next nn heq =>
      rw [h1] at heq
      injection heq with h2
      exact Option.noConfusion h2
    next heq =>
      split
      next heq2 =>
        rw [cleanFields_ctEx] at heq2
        exact Option.noConfusion heq2
      next out heq2 =>
        rw [cleanFields_ctEx] at heq2
        injection heq2 with h3
        subst h3
        rfl
  · decide

theorem cleanSchema_witness_eval :
    cleanJSONSchemaForAntigravity
        (.obj [("type", JValue.str "string"), ("pattern", JValue.str "x")]) =
      some (.obj [("type", JValue.str "string")]) := by
  have h2 : cleanSchemaFields
      [("type", JValue.str "string"), ("pattern", JValue.str "x")] =
      some [("type", JValue.str "string")] := by
    rw [cleanSchemaFields.eq_def]
    dsimp only
    rw [cleanSchemaFields.eq_def]
    dsimp only
    rw [cleanSchemaFields.eq_def]
    rfl
  rw [cleanJSONSchemaForAntigravity]
  have h1 : schemaBranchPick
      [("type", JValue.str "string"), ("pattern", JValue.str "x")] =
      some none := rfl
  split
  next heq =>
    rw [h1] at heq
    exact Option.noConfusion heq
  next nn heq =>
    rw [h1] at heq
    injection heq with h3
    exact Option.noConfusion h3
  next heq =>
    split
    next heq2 =>
      rw [h2] at heq2
      exact Option.noConfusion heq2
    next out heq2 =>
      rw [h2] at heq2
      injection heq2 with h3
      subst h3
      rfl

/-- The amended theorem applied to a concrete schema. -/
theorem cleanJSONSchemaForAntigravity_no_unsupported_witness :
    cleanableV (.obj [("type", JValue.str "string"),
      ("pattern", JValue.str "x")]) = true ∧
    hasUnsuppV (.obj [("type", JValue.str "string")]) = false :=
  ⟨by decide,
   cleanJSONSchemaForAntigravity_no_unsupported _ _ (by decide)
     cleanSchema_witness_eval⟩

end Gateway
